import Mathlib

set_option linter.unusedSectionVars false
set_option maxRecDepth 8000
set_option maxHeartbeats 1000000

/-!
Verification development for the mafia-srv WebSocket game server
(src/server.js, role-counts variant, plus the shared utilities).

The server keeps all state in memory: a registry of rooms (a JS Map keyed
by a short room code), each room holding a set of live connections, an
insertion-ordered map of peers, a host id, a phase label, a day counter and
settings (maxPlayers, roleCatalog, roleCounts).  Every inbound message is
handled to completion before the next one, so the whole server is modelled
as a pure step function on a ServerState.

Modelling conventions:
- JS Map and plain-object stores are insertion-ordered association lists;
  set replaces in place when the key exists and appends otherwise, which is
  exactly the JS semantics.
- Connection ids (uuid strings) are modelled as naturals; a uuid is never
  falsy, so the expression (remaining[0] or null) is the head of the
  remaining key list.  Room ids stay strings because the empty string is a
  possible (falsy!) generator output and truthiness checks matter.
- Numeric payload fields are modelled as Option Int: none stands for a
  non-finite Number (NaN or infinite); Math.floor is the identity on the
  integers that remain after the finiteness guard.
- Randomness (Math.random-based id generation and the Fisher-Yates index
  draws) is supplied by the event as an oracle; the shuffle draw
  (Math.random() * (i + 1)) | 0 always lands in [0, i], so the oracle value
  is reduced mod i + 1.
-/

/-- Truthiness of a JS string expression s or d: the default d is used when
the string is absent (null) or empty. -/
def jsOrOptS (o : Option String) (d : String) : String :=
  match o with
  | none => d
  | some s => if s = "" then d else s

/-- Truthiness of ws.name or null: an absent or empty string normalises to
null (none). -/
def jsStrOpt (o : Option String) : Option String :=
  match o with
  | none => none
  | some s => if s = "" then none else some s

section KeyedList

variable {α : Type} {β : Type} [BEq β] [LawfulBEq β]

/-- JS Map.set / object assignment on an insertion-ordered association list:
replace in place when an entry with the same key exists, append otherwise. -/
def setBy (k : α → β) (xs : List α) (x : α) : List α :=
  if xs.any (fun q => k q == k x) then
    xs.map (fun q => if k q == k x then x else q)
  else xs ++ [x]

/-- JS Map.get / object lookup: first entry with the given key. -/
def findBy (k : α → β) (xs : List α) (v : β) : Option α :=
  xs.find? (fun q => k q == v)

/-- JS Map.delete: drop the entry with the given key. -/
def delBy (k : α → β) (xs : List α) (v : β) : List α :=
  xs.filter (fun q => !(k q == v))

end KeyedList

/-- Connection ids: ws.id, a uuid, modelled as a natural number. -/
abbrev ConnId := Nat

/-- Room codes: output of genRoomId, a short (possibly empty) string. -/
abbrev RoomId := String

/-- Peer record (room.peers values): id -> { id, ws, name, role, alive }.
The ws handle of a peer is the connection with the same id, so it is not
duplicated here. -/
structure Peer where
  id : ConnId
  name : String
  role : Option String
  alive : Bool
deriving DecidableEq

/-- Per-room settings: { maxPlayers, roleCatalog, roleCounts }. -/
structure Settings where
  maxPlayers : Nat
  roleCatalog : List String
  roleCounts : List (String × Nat)
deriving DecidableEq

/-- A room: { id, hostId, phase, day, clients, peers, settings }. -/
structure Room where
  id : RoomId
  hostId : Option ConnId
  phase : String
  day : Nat
  clients : List ConnId
  peers : List Peer
  settings : Settings
deriving DecidableEq

/-- Connection-local state kept on the ws object: id, roomId, name. -/
structure Conn where
  id : ConnId
  roomId : Option RoomId
  name : Option String
deriving DecidableEq

/-- The whole in-memory server state: the rooms Map and the set of live
connections (wss.clients with their per-socket fields). -/
structure ServerState where
  rooms : List Room
  conns : List Conn
deriving DecidableEq

/-- Redacted peer entry of the public snapshot: { id, name, alive } only. -/
structure PeerView where
  id : ConnId
  name : String
  alive : Bool
deriving DecidableEq

/-- Public room snapshot sent as ROOM_STATE. -/
structure RoomStateView where
  roomId : RoomId
  hostId : Option ConnId
  phase : String
  day : Nat
  peers : List PeerView
  settings : Settings
deriving DecidableEq

/-- Server-to-client message types with their payloads. -/
inductive SPayload where
  | hello (id : ConnId)
  | ROOM_CREATED (roomId : RoomId) (hostId : Option ConnId)
  | JOINED (roomId : RoomId) (hostId : Option ConnId)
  | ROOM_STATE (view : RoomStateView)
  | PEER_JOINED (id : ConnId)
  | PEER_LEFT (id : ConnId)
  | PRIVATE_ROLE (role : Option String)
  | NAME_SET (name : String)
  | ERROR (message : String)
  | PONG
deriving DecidableEq

/-- One outbound send: recipient connection and message. -/
structure Sent where
  dest : ConnId
  msg : SPayload
deriving DecidableEq

/-- Inbound client messages (the payload fields each handler reads).
CREATE_ROOM carries the genRoomId() outcome and START_GAME the Fisher-Yates
index oracle, so that the random sources are explicit. -/
inductive ClientMsg where
  | CREATE_ROOM (newCode : RoomId)
  | JOIN_ROOM (roomId : Option String)
  | SET_NAME (name : Option String)
  | UPDATE_SETTINGS (maxPlayers : Option Int)
  | UPDATE_ROLE_COUNTS (counts : List (String × Option Int))
  | START_GAME (rnd : Nat → Nat)
  | PING

/-- External events driving the server: a new connection, an inbound
message on a connection, or a connection closing. -/
inductive Event where
  | connect (cid : ConnId)
  | message (cid : ConnId) (msg : ClientMsg)
  | close (cid : ConnId)

/-- ROLE_CATALOG of the role-counts variant. -/
def ROLE_CATALOG : List String :=
  ["pablo", "martinez", "blanco", "churchill", "doctor", "moreno", "benaparte", "citizen"]

/-- roomState(room): the public snapshot with the redacted peer list -
{ id, name, alive } only, the role field is never included. -/
def roomState (room : Room) : RoomStateView :=
  { roomId := room.id
    hostId := room.hostId
    phase := room.phase
    day := room.day
    peers := room.peers.map (fun p => { id := p.id, name := jsOrOptS (some p.name) "—", alive := p.alive })
    settings := { maxPlayers := room.settings.maxPlayers
                  roleCatalog := room.settings.roleCatalog
                  roleCounts := room.settings.roleCounts } }

/-- broadcast(room, type, payload): send to every client of the room in set
order. -/
def broadcastMsgs (room : Room) (pl : SPayload) : List Sent :=
  room.clients.map (fun c => { dest := c, msg := pl })

/-- The in-place mutations leaveRoom performs on the room object:
clients.delete(ws), peers.delete(ws.id), and host promotion
(hostId = remaining[0] or null) when the host left. -/
def removePeerFromRoom (room : Room) (cid : ConnId) : Room :=
  let clients := room.clients.filter (fun c => c ≠ cid)
  let peers := room.peers.filter (fun p => p.id ≠ cid)
  let hostId := if room.hostId = some cid then peers.head?.map Peer.id else room.hostId
  { room with clients := clients, peers := peers, hostId := hostId }

/-- leaveRoom(ws): early-return when ws.roomId is falsy (null or the empty
string); otherwise clear ws.roomId, and if the room exists remove the peer,
re-elect the host, broadcast PEER_LEFT and ROOM_STATE to the remaining
clients, and delete the room when its client set emptied. -/
def leaveRoomSt (rooms : List Room) (conn : Conn) : List Room × Conn × List Sent :=
  match conn.roomId with
  | none => (rooms, conn, [])
  | some rid =>
    if rid = "" then (rooms, conn, [])
    else
      let conn1 := { conn with roomId := none }
      match findBy Room.id rooms rid with
      | none => (rooms, conn1, [])
      | some room =>
        let room1 := removePeerFromRoom room conn.id
        let msgs := broadcastMsgs room1 (.PEER_LEFT conn.id)
          ++ broadcastMsgs room1 (.ROOM_STATE (roomState room1))
        let rooms1 := if room1.clients.isEmpty then delBy Room.id rooms rid
          else setBy Room.id rooms room1
        (rooms1, conn1, msgs)

/-- rooms.get(ws.roomId) for the handlers that read the sender's room. -/
def getRoomOfConn (rooms : List Room) (conn : Conn) : Option Room :=
  match conn.roomId with
  | none => none
  | some rid => findBy Room.id rooms rid

/-- The default role counts built by CREATE_ROOM: every catalog role 0,
then citizen set to 1. -/
def defaultCounts : List (String × Nat) :=
  setBy Prod.fst (ROLE_CATALOG.map (fun r => (r, 0))) ("citizen", 1)

/-- The room object CREATE_ROOM builds and registers: default settings,
the sender as host and sole peer. -/
def createdRoom (conn : Conn) (newCode : RoomId) : Room :=
  { id := newCode, hostId := some conn.id, phase := "lobby", day := 0
    clients := [conn.id]
    peers := [{ id := conn.id, name := jsOrOptS conn.name "Host", role := none, alive := false }]
    settings := { maxPlayers := 11, roleCatalog := ROLE_CATALOG, roleCounts := defaultCounts } }

/-- CREATE_ROOM handler: leaveRoom(ws) first, then build the room with the
default settings, register it under the generated code (a plain Map.set,
overwriting any room that already holds that code), add the sender as host
peer, and send ROOM_CREATED plus the ROOM_STATE broadcast. -/
def createRoomH (rooms : List Room) (conn : Conn) (newCode : RoomId) :
    List Room × Conn × List Sent :=
  let lv := leaveRoomSt rooms conn
  let room := createdRoom conn newCode
  let rooms2 := setBy Room.id lv.1 room
  let conn2 := { lv.2.1 with roomId := some newCode }
  (rooms2, conn2,
    lv.2.2 ++ [{ dest := conn.id, msg := .ROOM_CREATED newCode (some conn.id) }]
      ++ broadcastMsgs room (.ROOM_STATE (roomState room)))

/-- The room object JOIN_ROOM holds while it adds the sender: when the
sender was already in that very room, leaveRoom has just mutated this same
object (aliasing), otherwise it is the freshly looked-up room. -/
def joinR1 (conn : Conn) (key : RoomId) (room : Room) : Room :=
  if conn.roomId = some key then removePeerFromRoom room conn.id else room

/-- The room object after JOIN_ROOM performed clients.add(ws) and
peers.set(ws.id, { id, ws, name: ws.name or Guest, role: null,
alive: false }) on it. -/
def joinR2 (conn : Conn) (key : RoomId) (room : Room) : Room :=
  { joinR1 conn key room with
    clients := (joinR1 conn key room).clients ++ [conn.id]
    peers := setBy Peer.id (joinR1 conn key room).peers
      { id := conn.id, name := jsOrOptS conn.name "Guest", role := none, alive := false } }

/-- JOIN_ROOM handler: look the room up by the uppercased payload id, check
capacity, then leaveRoom(ws) and add the sender to the room object.  The
room object is aliased: when the sender was already in that very room,
leaveRoom mutated it (and may even have removed it from the registry, in
which case the re-added object stays orphaned and the registry is left
as leaveRoom produced it). -/
def joinRoomH (rooms : List Room) (conn : Conn) (roomIdPayload : Option String) :
    List Room × Conn × List Sent :=
  let key := (jsOrOptS roomIdPayload "").toUpper
  match findBy Room.id rooms key with
  | none => (rooms, conn, [{ dest := conn.id, msg := .ERROR "ROOM_NOT_FOUND" }])
  | some room =>
    if room.settings.maxPlayers ≤ room.clients.length then
      (rooms, conn, [{ dest := conn.id, msg := .ERROR "ROOM_IS_FULL" }])
    else
      let lv := leaveRoomSt rooms conn
      let r2 := joinR2 conn key room
      let rooms2 := if (findBy Room.id lv.1 key).isSome then setBy Room.id lv.1 r2 else lv.1
      let conn2 := { lv.2.1 with roomId := some room.id }
      (rooms2, conn2,
        lv.2.2 ++ [{ dest := conn.id, msg := .JOINED r2.id r2.hostId }]
          ++ broadcastMsgs r2 (.PEER_JOINED conn.id)
          ++ broadcastMsgs r2 (.ROOM_STATE (roomState r2)))

/-- SET_NAME handler: normalise the name (slice to 24 chars, trim), update
ws.name, and when the sender is in a room update the peer entry and
broadcast the new snapshot; otherwise reply NAME_SET. -/
def setNameH (rooms : List Room) (conn : Conn) (pname : Option String) :
    List Room × Conn × List Sent :=
  let name := ((jsOrOptS pname "").take 24).trim
  let conn1 := { conn with name := if name = "" then jsStrOpt conn.name else some name }
  match conn.roomId with
  | some rid =>
    if rid = "" then
      (rooms, conn1, [{ dest := conn.id, msg := .NAME_SET (jsOrOptS conn1.name "") }])
    else
      match findBy Room.id rooms rid with
      | some room =>
        let peers1 :=
          match findBy Peer.id room.peers conn.id with
          | some p => setBy Peer.id room.peers { p with name := jsOrOptS conn1.name p.name }
          | none => room.peers
        let room1 := { room with peers := peers1 }
        (setBy Room.id rooms room1, conn1, broadcastMsgs room1 (.ROOM_STATE (roomState room1)))
      | none => (rooms, conn1, [])
  | none => (rooms, conn1, [{ dest := conn.id, msg := .NAME_SET (jsOrOptS conn1.name "") }])

/-- UPDATE_SETTINGS handler (host only): clamp maxPlayers into [3, 20] when
the payload number is finite, then broadcast the snapshot. -/
def updateSettingsH (rooms : List Room) (conn : Conn) (pmax : Option Int) :
    List Room × Conn × List Sent :=
  match getRoomOfConn rooms conn with
  | none => (rooms, conn, [])
  | some room =>
    if room.hostId ≠ some conn.id then
      (rooms, conn, [{ dest := conn.id, msg := .ERROR "ONLY_HOST" }])
    else
      let room1 :=
        match pmax with
        | some n => { room with settings := { room.settings with maxPlayers := (max 3 (min 20 n)).toNat } }
        | none => room
      (setBy Room.id rooms room1, conn, broadcastMsgs room1 (.ROOM_STATE (roomState room1)))

/-- Clamping of one payload count: non-finite or negative becomes 0,
otherwise floor and cap at 50. -/
def clampCount (v : Option Int) : Nat :=
  match v with
  | none => 0
  | some n => if n < 0 then 0 else min 50 n.toNat

/-- The replacement counts object built by UPDATE_ROLE_COUNTS: iterate the
payload keys, keeping catalog keys with clamped values, then fill every
catalog role missing from the result with 0. -/
def nextCounts (catalog : List String) (pcounts : List (String × Option Int)) :
    List (String × Nat) :=
  let step1 := pcounts.foldl
    (fun acc rv =>
      if catalog.contains rv.1 then setBy Prod.fst acc (rv.1, clampCount rv.2)
      else acc) []
  catalog.foldl
    (fun acc r => if (findBy Prod.fst acc r).isSome then acc else setBy Prod.fst acc (r, 0)) step1

/-- UPDATE_ROLE_COUNTS handler (host only): keep only catalog keys, clamp
each value into [0, 50], fill the catalog roles missing from the payload
with 0, store the result and broadcast the snapshot. -/
def updateRoleCountsH (rooms : List Room) (conn : Conn) (pcounts : List (String × Option Int)) :
    List Room × Conn × List Sent :=
  match getRoomOfConn rooms conn with
  | none => (rooms, conn, [])
  | some room =>
    if room.hostId ≠ some conn.id then
      (rooms, conn, [{ dest := conn.id, msg := .ERROR "ONLY_HOST" }])
    else
      let room1 := { room with settings :=
        { room.settings with roleCounts := nextCounts room.settings.roleCatalog pcounts } }
      (setBy Room.id rooms room1, conn, broadcastMsgs room1 (.ROOM_STATE (roomState room1)))

/-- Swap of two array cells, the Fisher-Yates loop body. -/
def swapElems {α : Type} (l : List α) (i j : Nat) : List α :=
  match l.get? i, l.get? j with
  | some x, some y => (l.set i y).set j x
  | _, _ => l

/-- The Fisher-Yates loop of shuffle: for i from the given bound down to 1,
swap a[i] with a[j] where j is drawn in [0, i].  The draw
(Math.random() * (i + 1)) | 0 is an integer in [0, i]; the oracle value is
reduced mod i + 1 to respect that range. -/
def shuffleFrom {α : Type} (rnd : Nat → Nat) : List α → Nat → List α
  | a, 0 => a
  | a, Nat.succ k => shuffleFrom rnd (swapElems a (k + 1) (rnd (k + 1) % (k + 2))) k

/-- shuffle(arr): copy and Fisher-Yates from the last index down. -/
def shuffle {α : Type} (rnd : Nat → Nat) (arr : List α) : List α :=
  shuffleFrom rnd arr (arr.length - 1)

/-- Lookup of counts[r] with the falsy default 0 (and the redundant
Math.max(0, ...) is the identity on naturals). -/
def countOf (counts : List (String × Nat)) (r : String) : Nat :=
  ((findBy Prod.fst counts r).map Prod.snd).getD 0

/-- START_GAME pool construction step 1: repeat each catalog role
roleCounts[role] times, in catalog order. -/
def buildPool (catalog : List String) (counts : List (String × Nat)) : List String :=
  catalog.flatMap (fun r => List.replicate (countOf counts r) r)

/-- START_GAME pool construction step 2: seed an empty pool with one
citizen. -/
def seedPool (p : List String) : List String :=
  if p.isEmpty then p ++ ["citizen"] else p

/-- START_GAME pool construction step 3: the padding while-loop appends
citizen until the pool length reaches the player count. -/
def padPool (p : List String) (n : Nat) : List String :=
  p ++ List.replicate (n - p.length) "citizen"

/-- The assigned-role list: shuffle the padded pool and slice to the player
count. -/
def assignPool (rnd : Nat → Nat) (catalog : List String) (counts : List (String × Nat)) (n : Nat) :
    List String :=
  (shuffle rnd (padPool (seedPool (buildPool catalog counts)) n)).take n

/-- peers.forEach((p, i) => { p.role = roles[i]; p.alive = true;
send(p.ws, PRIVATE_ROLE, { role: p.role }) }): returns the updated peer
list and the unicast role messages, in order. -/
def assignPeers (roles : List String) (i : Nat) : List Peer → List Peer × List Sent
  | [] => ([], [])
  | p :: ps =>
    let p1 := { p with role := roles.get? i, alive := true }
    let rest := assignPeers roles (i + 1) ps
    (p1 :: rest.1, { dest := p.id, msg := .PRIVATE_ROLE (roles.get? i) } :: rest.2)

/-- START_GAME handler (host only, lobby only, at least 3 peers): build the
role pool from the counts, seed and pad it with citizen, shuffle, slice to
the peer count, give each peer one role (alive set true), move the room to
night with day 1 and broadcast the snapshot. -/
def startGameH (rooms : List Room) (conn : Conn) (rnd : Nat → Nat) :
    List Room × Conn × List Sent :=
  match getRoomOfConn rooms conn with
  | none => (rooms, conn, [])
  | some room =>
    if room.hostId ≠ some conn.id then
      (rooms, conn, [{ dest := conn.id, msg := .ERROR "ONLY_HOST_CAN_START" }])
    else if room.phase ≠ "lobby" then
      (rooms, conn, [{ dest := conn.id, msg := .ERROR "ALREADY_STARTED" }])
    else if room.peers.length < 3 then
      (rooms, conn, [{ dest := conn.id, msg := .ERROR "NEED_AT_LEAST_3_PLAYERS" }])
    else
      let roles := assignPool rnd room.settings.roleCatalog room.settings.roleCounts room.peers.length
      let asg := assignPeers roles 0 room.peers
      let room1 := { room with peers := asg.1, phase := "night", day := 1 }
      (setBy Room.id rooms room1, conn,
        asg.2 ++ broadcastMsgs room1 (.ROOM_STATE (roomState room1)))

/-- The message dispatch chain of ws.on("message"). -/
def dispatch (rooms : List Room) (conn : Conn) : ClientMsg → List Room × Conn × List Sent
  | .CREATE_ROOM code => createRoomH rooms conn code
  | .JOIN_ROOM rid => joinRoomH rooms conn rid
  | .SET_NAME n => setNameH rooms conn n
  | .UPDATE_SETTINGS m => updateSettingsH rooms conn m
  | .UPDATE_ROLE_COUNTS cs => updateRoleCountsH rooms conn cs
  | .START_GAME rnd => startGameH rooms conn rnd
  | .PING => (rooms, conn, [{ dest := conn.id, msg := .PONG }])

/-- The whole server step: wss.on("connection") registers the socket and
sends hello; a message runs the dispatch chain for the sender and writes the
mutated ws fields back; ws.on("close") runs leaveRoom and drops the socket
from the live set. -/
def handle (st : ServerState) (ev : Event) : ServerState × List Sent :=
  match ev with
  | .connect cid =>
    ({ rooms := st.rooms, conns := st.conns ++ [{ id := cid, roomId := none, name := none }] },
      [{ dest := cid, msg := .hello cid }])
  | .message cid m =>
    match findBy Conn.id st.conns cid with
    | none => (st, [])
    | some conn =>
      let r := dispatch st.rooms conn m
      ({ rooms := r.1, conns := setBy Conn.id st.conns r.2.1 }, r.2.2)
  | .close cid =>
    match findBy Conn.id st.conns cid with
    | none => (st, [])
    | some conn =>
      let r := leaveRoomSt st.rooms conn
      ({ rooms := r.1, conns := delBy Conn.id st.conns cid }, r.2.2)

/-- A role reassignment on a room: used to state that the public snapshot
carries no role information. -/
def mapRolesRoom (f : ConnId → Option String) (room : Room) : Room :=
  { room with peers := room.peers.map (fun p => { p with role := f p.id }) }

/-- Secrecy discipline of one outbound message: a PRIVATE_ROLE payload is
the recipient's own (post-state) role, and every ROOM_STATE payload is the
redacted snapshot of some room. -/
def MsgOk (rooms : List Room) (m : Sent) : Prop :=
  (∀ ro, m.msg = .PRIVATE_ROLE ro →
    ∃ room ∈ rooms, ∃ p ∈ room.peers, p.id = m.dest ∧ p.role = ro) ∧
  (∀ v, m.msg = .ROOM_STATE v → ∃ room, v = roomState room)

/-- Events whose generated room code is truthy (nonempty).  genRoomId can
produce the empty string only when Math.random() returns exactly 0. -/
def GoodEv : Event → Prop
  | .message _ (.CREATE_ROOM code) => code ≠ ""
  | _ => True

/-- Reachable server states: the registry starts empty, connections arrive
with fresh uuids, and every inbound message or close is a handle step. -/
inductive Reaches : ServerState → Prop
  | init : Reaches { rooms := [], conns := [] }
  | step (st : ServerState) (ev : Event) (h : Reaches st)
      (hfresh : ∀ cid, ev = .connect cid → ∀ c ∈ st.conns, c.id ≠ cid) :
      Reaches (handle st ev).1

/-- Reachable states along traces whose CREATE_ROOM codes are all truthy. -/
inductive ReachesGood : ServerState → Prop
  | init : ReachesGood { rooms := [], conns := [] }
  | step (st : ServerState) (ev : Event) (h : ReachesGood st) (hg : GoodEv ev)
      (hfresh : ∀ cid, ev = .connect cid → ∀ c ∈ st.conns, c.id ≠ cid) :
      ReachesGood (handle st ev).1

/-- Modelled from the spec: no phase timer exists anywhere in src (there is
no START_TIMER or PAUSE_GAME handler and no timer state); section 4.4 of the
spec defines the PhaseTimer state as remainingMs, running, and the phase
label it was started for. -/
structure PhaseTimer where
  remainingMs : Nat
  running : Bool
  phase : String
deriving DecidableEq

/-- Modelled from the spec: start(durationMs, phase) cancels any existing
timer, sets remainingMs to the duration, running to true, and the phase
label. -/
def timerStart (durationMs : Nat) (ph : String) : PhaseTimer :=
  { remainingMs := durationMs, running := true, phase := ph }

/-- Modelled from the spec: a tick fires only while running and the room is
not paused; it decrements remainingMs by 1000 floored at 0, and when the
value reaches 0 it sets running to false.  While paused, ticks are
suppressed entirely and remainingMs is frozen. -/
def timerTick (paused : Bool) (t : PhaseTimer) : PhaseTimer :=
  if t.running && !paused then
    let r := t.remainingMs - 1000
    { t with remainingMs := r, running := if r = 0 then false else t.running }
  else t

/-- Timer states reachable from a start with a positive duration, under any
interleaving of paused and unpaused ticks (and restarts). -/
inductive TimerReach : PhaseTimer → Prop
  | start (d : Nat) (ph : String) (h : 0 < d) : TimerReach (timerStart d ph)
  | tick (paused : Bool) (t : PhaseTimer) (h : TimerReach t) : TimerReach (timerTick paused t)

/-- Whether a room's clients or peers mention the given connection. -/
def occupies (cid : ConnId) (r : Room) : Bool :=
  r.clients.contains cid || r.peers.any (fun p => p.id == cid)

/-- The well-formedness invariant tying rooms to connections: room codes are
unique and truthy, connection ids are unique, no live connection points at a
falsy room id, every client of a room is a live connection whose roomId is
that room, and every peer of a room is one of its clients. -/
def InvP (rooms : List Room) (conns : List Conn) : Prop :=
  (rooms.map Room.id).Nodup ∧
  (conns.map Conn.id).Nodup ∧
  (∀ room ∈ rooms, room.id ≠ "") ∧
  (∀ c ∈ conns, c.roomId ≠ some "") ∧
  (∀ room ∈ rooms, ∀ cid ∈ room.clients, ∃ c ∈ conns, c.id = cid ∧ c.roomId = some room.id) ∧
  (∀ room ∈ rooms, ∀ p ∈ room.peers, p.id ∈ room.clients)

/-- The invariant on a whole server state. -/
def StInv (st : ServerState) : Prop := InvP st.rooms st.conns

section KeyedListLemmas

variable {α : Type} {β : Type} [BEq β] [LawfulBEq β] {k : α → β}

theorem mem_setBy_self (xs : List α) (x : α) : x ∈ setBy k xs x := by
  unfold setBy
  by_cases h : xs.any (fun q => k q == k x) = true
  · simp only [h, if_true]
    rcases List.any_eq_true.mp h with ⟨q, hq, hkq⟩
    exact List.mem_map.mpr ⟨q, hq, by simp [hkq]⟩
  · simp [h]

theorem mem_setBy {xs : List α} {x y : α} (h : y ∈ setBy k xs x) :
    y = x ∨ (y ∈ xs ∧ k y ≠ k x) := by
  unfold setBy at h
  by_cases hc : xs.any (fun q => k q == k x) = true
  · simp only [hc, if_true] at h
    rcases List.mem_map.mp h with ⟨q, hq, hqe⟩
    by_cases hk : (k q == k x) = true
    · left
      simp only [hk, if_true] at hqe
      exact hqe.symm
    · right
      simp only [hk, if_false] at hqe
      subst hqe
      exact ⟨hq, by simpa using hk⟩
  · have h' : y ∈ xs ++ [x] := by simpa [hc] using h
    rcases List.mem_append.mp h' with h1 | h1
    · right
      refine ⟨h1, ?_⟩
      have hall := List.any_eq_true.not.mp hc
      push_neg at hall
      simpa using hall y h1
    · left
      simpa using h1

theorem mem_setBy_of_ne {xs : List α} {x y : α} (hy : y ∈ xs) (hne : k y ≠ k x) :
    y ∈ setBy k xs x := by
  unfold setBy
  by_cases hc : xs.any (fun q => k q == k x) = true
  · simp only [hc, if_true]
    exact List.mem_map.mpr ⟨y, hy, by simp [hne]⟩
  · simp [hc, hy]

theorem keys_setBy_of_any {xs : List α} {x : α} (hc : xs.any (fun q => k q == k x) = true) :
    (setBy k xs x).map k = xs.map k := by
  unfold setBy
  simp only [hc, if_true, List.map_map]
  apply List.map_congr_left
  intro q _
  by_cases hk : (k q == k x) = true
  · simp only [Function.comp_apply, hk, if_true]
    exact (beq_iff_eq.mp hk).symm
  · simp [Function.comp_apply, hk]

theorem keys_setBy_of_not_any {xs : List α} {x : α} (hc : ¬ xs.any (fun q => k q == k x) = true) :
    (setBy k xs x).map k = xs.map k ++ [k x] := by
  unfold setBy
  simp [hc]

theorem nodup_keys_setBy {xs : List α} (h : (xs.map k).Nodup) (x : α) :
    ((setBy k xs x).map k).Nodup := by
  by_cases hc : xs.any (fun q => k q == k x) = true
  · rw [keys_setBy_of_any hc]; exact h
  · rw [keys_setBy_of_not_any hc]
    have hnm : k x ∉ xs.map k := by
      intro hmem
      rcases List.mem_map.mp hmem with ⟨q, hq, hkq⟩
      have hall := List.any_eq_true.not.mp hc
      push_neg at hall
      have hne : ¬ (k q == k x) = true := by simpa using hall q hq
      exact hne (beq_iff_eq.mpr hkq)
    simp [List.nodup_append, h, hnm]

theorem find?_map_setfun_self (t : List α) (x : α)
    (hany : t.any (fun q => k q == k x) = true) :
    (t.map (fun r => if k r == k x then x else r)).find? (fun q => k q == k x) = some x := by
  induction t with
  | nil => simp at hany
  | cons r t ih =>
    by_cases hr : (k r == k x) = true
    · simp [hr]
    · have ht : t.any (fun q => k q == k x) = true := by
        simpa [hr] using hany
      simpa [hr] using ih ht

theorem find?_map_setfun_ne (t : List α) (x : α) {v : β} (h : v ≠ k x) :
    (t.map (fun r => if k r == k x then x else r)).find? (fun q => k q == v)
      = t.find? (fun q => k q == v) := by
  induction t with
  | nil => simp
  | cons r t ih =>
    by_cases hr : (k r == k x) = true
    · have hrx : k r = k x := beq_iff_eq.mp hr
      have hxv : ¬ (k x == v) = true := by
        simp only [beq_iff_eq]
        exact fun e => h e.symm
      have hrv : ¬ (k r == v) = true := by rw [hrx]; exact hxv
      simpa [hr, hxv, hrv] using ih
    · by_cases hrv : (k r == v) = true
      · simp [hr, hrv]
      · simpa [hr, hrv] using ih

theorem findBy_setBy_self (xs : List α) (x : α) : findBy k (setBy k xs x) (k x) = some x := by
  unfold setBy findBy
  by_cases hc : xs.any (fun q => k q == k x) = true
  · simp only [hc, if_true]
    exact find?_map_setfun_self xs x hc
  · simp only [hc, if_false, List.find?_append]
    have hnone : xs.find? (fun q => k q == k x) = none := by
      rw [List.find?_eq_none]
      intro q hq
      have hall := List.any_eq_true.not.mp hc
      push_neg at hall
      simpa using hall q hq
    simp [hnone]

theorem findBy_setBy_ne (xs : List α) (x : α) {v : β} (h : v ≠ k x) :
    findBy k (setBy k xs x) v = findBy k xs v := by
  unfold setBy findBy
  by_cases hc : xs.any (fun q => k q == k x) = true
  · simp only [hc, if_true]
    exact find?_map_setfun_ne xs x h
  · simp only [hc, if_false, List.find?_append]
    have hx : ¬ (k x == v) = true := by
      simp only [beq_iff_eq]
      exact fun e => h e.symm
    simp [hx]

theorem findBy_eq_some {xs : List α} {v : β} {x : α} (h : findBy k xs v = some x) :
    x ∈ xs ∧ k x = v := by
  refine ⟨List.mem_of_find?_eq_some h, ?_⟩
  have := List.find?_some h
  simpa using this

theorem findBy_eq_none {xs : List α} {v : β} :
    findBy k xs v = none ↔ ∀ q ∈ xs, k q ≠ v := by
  unfold findBy
  rw [List.find?_eq_none]
  constructor
  · intro h q hq
    simpa using h q hq
  · intro h q hq
    simpa using h q hq

theorem eq_of_keys_nodup {xs : List α} (h : (xs.map k).Nodup) {q x : α}
    (hq : q ∈ xs) (hx : x ∈ xs) (hk : k q = k x) : q = x := by
  induction xs with
  | nil => simp at hq
  | cons a t ih =>
    simp only [List.map_cons, List.nodup_cons] at h
    rcases List.mem_cons.mp hq with rfl | hq'
    · rcases List.mem_cons.mp hx with rfl | hx'
      · rfl
      · exact absurd (hk ▸ List.mem_map_of_mem k hx') h.1
    · rcases List.mem_cons.mp hx with rfl | hx'
      · exact absurd (hk ▸ List.mem_map_of_mem k hq') h.1
      · exact ih h.2 hq' hx'

theorem setBy_self_of_nodup {xs : List α} (h : (xs.map k).Nodup) {x : α} (hx : x ∈ xs) :
    setBy k xs x = xs := by
  have hany : xs.any (fun q => k q == k x) = true :=
    List.any_eq_true.mpr ⟨x, hx, by simp⟩
  unfold setBy
  simp only [hany, if_true]
  have : ∀ q ∈ xs, (if k q == k x then x else q) = q := by
    intro q hq
    by_cases hk : (k q == k x) = true
    · simp only [hk, if_true]
      exact (eq_of_keys_nodup h hq hx (beq_iff_eq.mp hk)).symm
    · simp [hk]
  calc xs.map (fun q => if k q == k x then x else q) = xs.map id :=
        List.map_congr_left this
    _ = xs := List.map_id xs

theorem mem_delBy {xs : List α} {v : β} {y : α} :
    y ∈ delBy k xs v ↔ y ∈ xs ∧ k y ≠ v := by
  unfold delBy
  simp [List.mem_filter]

theorem findBy_delBy_self (xs : List α) (v : β) : findBy k (delBy k xs v) v = none := by
  unfold findBy
  rw [List.find?_eq_none]
  intro q hq
  have := (mem_delBy.mp hq).2
  simpa using this

theorem findBy_delBy_ne (xs : List α) {v w : β} (h : w ≠ v) :
    findBy k (delBy k xs v) w = findBy k xs w := by
  unfold findBy delBy
  induction xs with
  | nil => simp
  | cons q t ih =>
    by_cases hq : (k q == v) = true
    · have hqw : ¬ (k q == w) = true := by
        simp only [beq_iff_eq] at hq ⊢
        rw [hq]
        exact fun e => h e.symm
      simpa [List.filter_cons, hq, hqw] using ih
    · by_cases hqw : (k q == w) = true
      · simp [List.filter_cons, hq, hqw]
      · simpa [List.filter_cons, hq, hqw] using ih

theorem keys_delBy_nodup {xs : List α} (h : (xs.map k).Nodup) (v : β) :
    ((delBy k xs v).map k).Nodup :=
  List.Nodup.sublist (List.Sublist.map k (List.filter_sublist xs)) h

theorem nodup_length_le_one {xs : List α} (h : xs.Nodup)
    (hall : ∀ a ∈ xs, ∀ b ∈ xs, a = b) : xs.length ≤ 1 := by
  match xs with
  | [] => simp
  | [a] => simp
  | a :: b :: t =>
    exfalso
    have hab : a = b := hall a (by simp) b (by simp)
    simp [hab] at h

end KeyedListLemmas

section ShuffleLemmas

variable {γ : Type} [DecidableEq γ]

theorem count_set_add (b c : γ) :
    ∀ (l : List γ) (n : Nat) (b0 : γ), l.get? n = some b0 →
      (l.set n b).count c + (if b0 = c then 1 else 0)
        = l.count c + (if b = c then 1 else 0) := by
  intro l
  induction l with
  | nil => intro n b0 h; simp at h
  | cons a t ih =>
    intro n b0 h
    cases n with
    | zero =>
      simp only [List.get?] at h
      injection h with h
      subst h
      simp only [List.set, List.count_cons, beq_iff_eq]
      split_ifs <;> omega
    | succ m =>
      simp only [List.get?] at h
      have := ih m b0 h
      simp only [List.set, List.count_cons, beq_iff_eq]
      split_ifs at this ⊢ <;> omega

theorem count_swapElems (l : List γ) (i j : Nat) (c : γ) :
    (swapElems l i j).count c = l.count c := by
  unfold swapElems
  cases hi : l.get? i with
  | none => rfl
  | some x =>
    cases hj : l.get? j with
    | none => rfl
    | some y =>
      simp only []
      have hyj : (l.set i y).get? j = some y := by
        by_cases hij : i = j
        · subst hij
          rcases List.get?_eq_some.mp hi with ⟨hlt, _⟩
          simp only [List.get?_eq_getElem?]
          rw [List.getElem?_set_self hlt]
        · simp only [List.get?_eq_getElem?] at hj ⊢
          rw [List.getElem?_set_ne hij]
          exact hj
      have h1 := count_set_add y c l i x hi
      have h2 := count_set_add x c (l.set i y) j y hyj
      split_ifs at h1 h2 <;> omega

theorem swapElems_perm (l : List γ) (i j : Nat) : List.Perm (swapElems l i j) l :=
  List.perm_iff_count.mpr fun c => count_swapElems l i j c

theorem shuffleFrom_perm (rnd : Nat → Nat) : ∀ (n : Nat) (a : List γ), List.Perm (shuffleFrom rnd a n) a := by
  intro n
  induction n with
  | zero => intro a; exact List.Perm.refl a
  | succ m ih =>
    intro a
    exact (ih _).trans (swapElems_perm a (m + 1) (rnd (m + 1) % (m + 2)))

theorem shuffle_perm (rnd : Nat → Nat) (arr : List γ) : List.Perm (shuffle rnd arr) arr :=
  shuffleFrom_perm rnd (arr.length - 1) arr

theorem shuffle_length (rnd : Nat → Nat) (arr : List γ) :
    (shuffle rnd arr).length = arr.length :=
  (shuffle_perm rnd arr).length_eq

theorem mem_of_mem_shuffle {rnd : Nat → Nat} {arr : List γ} {x : γ}
    (h : x ∈ shuffle rnd arr) : x ∈ arr :=
  (shuffle_perm rnd arr).mem_iff.mp h

end ShuffleLemmas

theorem padPool_length_ge (p : List String) (n : Nat) : n ≤ (padPool p n).length := by
  unfold padPool
  simp only [List.length_append, List.length_replicate]
  omega

theorem assignPool_length (rnd : Nat → Nat) (catalog : List String)
    (counts : List (String × Nat)) (n : Nat) :
    (assignPool rnd catalog counts n).length = n := by
  unfold assignPool
  rw [List.length_take, shuffle_length]
  have := padPool_length_ge (seedPool (buildPool catalog counts)) n
  omega

theorem assignPool_mem {rnd : Nat → Nat} {catalog : List String}
    {counts : List (String × Nat)} {n : Nat} {r : String}
    (h : r ∈ assignPool rnd catalog counts n) :
    r ∈ padPool (seedPool (buildPool catalog counts)) n := by
  unfold assignPool at h
  exact mem_of_mem_shuffle (List.mem_of_mem_take h)

theorem assignPeers_fst_length (roles : List String) :
    ∀ (i : Nat) (ps : List Peer), (assignPeers roles i ps).1.length = ps.length := by
  intro i ps
  induction ps generalizing i with
  | nil => rfl
  | cons p t ih => simp [assignPeers, ih]

theorem assignPeers_fst_get? (roles : List String) :
    ∀ (ps : List Peer) (i n : Nat),
      ((assignPeers roles i ps).1.get? n)
        = (ps.get? n).map (fun p => { p with role := roles.get? (i + n), alive := true }) := by
  intro ps
  induction ps with
  | nil => intro i n; simp [assignPeers]
  | cons p t ih =>
    intro i n
    cases n with
    | zero => simp [assignPeers]
    | succ m =>
      simp only [assignPeers, List.get?]
      have harith : i + 1 + m = i + (m + 1) := by omega
      rw [ih (i + 1) m, harith]

theorem assignPeers_fst_ids (roles : List String) :
    ∀ (i : Nat) (ps : List Peer), (assignPeers roles i ps).1.map Peer.id = ps.map Peer.id := by
  intro i ps
  induction ps generalizing i with
  | nil => rfl
  | cons p t ih => simp [assignPeers, ih]

theorem assignPeers_snd_mem (roles : List String) :
    ∀ (i : Nat) (ps : List Peer) (m : Sent), m ∈ (assignPeers roles i ps).2 →
      ∃ n p, ps.get? n = some p ∧ m = { dest := p.id, msg := .PRIVATE_ROLE (roles.get? (i + n)) } := by
  intro i ps
  induction ps generalizing i with
  | nil => intro m hm; simp [assignPeers] at hm
  | cons p t ih =>
    intro m hm
    simp only [assignPeers, List.mem_cons] at hm
    rcases hm with rfl | hm
    · exact ⟨0, p, rfl, by simp⟩
    · rcases ih (i + 1) m hm with ⟨n, q, hq, hmq⟩
      refine ⟨n + 1, q, by simpa using hq, ?_⟩
      have harith : i + 1 + n = i + (n + 1) := by omega
      rw [hmq, harith]

theorem broadcast_msg {room : Room} {pl : SPayload} {m : Sent}
    (h : m ∈ broadcastMsgs room pl) : m.msg = pl := by
  unfold broadcastMsgs at h
  rcases List.mem_map.mp h with ⟨c, _, rfl⟩
  rfl

theorem msgOk_not_special {rs : List Room} {m : Sent}
    (h1 : ∀ ro, m.msg ≠ .PRIVATE_ROLE ro) (h2 : ∀ v, m.msg ≠ .ROOM_STATE v) : MsgOk rs m :=
  ⟨fun ro hro => absurd hro (h1 ro), fun v hv => absurd hv (h2 v)⟩

theorem msgOk_roomState {rs : List Room} {room : Room} {m : Sent}
    (h : m.msg = .ROOM_STATE (roomState room)) : MsgOk rs m := by
  constructor
  · intro ro hro
    rw [h] at hro
    cases hro
  · intro v hv
    rw [h] at hv
    injection hv with hv
    exact ⟨room, hv.symm⟩

theorem leave_msgOk (rooms : List Room) (conn : Conn) (rs : List Room) :
    ∀ m ∈ (leaveRoomSt rooms conn).2.2, MsgOk rs m := by
  intro m hm
  rcases hcr : conn.roomId with _ | rid
  · simp [leaveRoomSt, hcr] at hm
  · by_cases hrid : rid = ""
    · simp [leaveRoomSt, hcr, hrid] at hm
    · cases hf : findBy Room.id rooms rid with
      | none => simp [leaveRoomSt, hcr, hrid, hf] at hm
      | some room =>
        have hm' : m ∈ broadcastMsgs (removePeerFromRoom room conn.id) (.PEER_LEFT conn.id)
            ++ broadcastMsgs (removePeerFromRoom room conn.id)
              (.ROOM_STATE (roomState (removePeerFromRoom room conn.id))) := by
          simpa [leaveRoomSt, hcr, hrid, hf] using hm
        rcases List.mem_append.mp hm' with h | h
        · apply msgOk_not_special
          · intro ro
            rw [broadcast_msg h]
            simp
          · intro v
            rw [broadcast_msg h]
            simp
        · exact msgOk_roomState (broadcast_msg h)

theorem createRoomH_msgOk (rooms : List Room) (conn : Conn) (code : RoomId) (rs : List Room) :
    ∀ m ∈ (createRoomH rooms conn code).2.2, MsgOk rs m := by
  intro m hm
  simp only [createRoomH, List.mem_append] at hm
  rcases hm with (hm | hm) | hm
  · exact leave_msgOk rooms conn rs m hm
  · rcases List.mem_singleton.mp hm with rfl
    exact msgOk_not_special (by intro ro; simp) (by intro v; simp)
  · exact msgOk_roomState (broadcast_msg hm)

theorem joinRoomH_msgOk (rooms : List Room) (conn : Conn) (rid : Option String) (rs : List Room) :
    ∀ m ∈ (joinRoomH rooms conn rid).2.2, MsgOk rs m := by
  intro m hm
  unfold joinRoomH at hm
  cases hf : findBy Room.id rooms ((jsOrOptS rid "").toUpper) with
  | none =>
    simp only [hf] at hm
    rcases List.mem_singleton.mp hm with rfl
    exact msgOk_not_special (by intro ro; simp) (by intro v; simp)
  | some room =>
    simp only [hf] at hm
    by_cases hcap : room.settings.maxPlayers ≤ room.clients.length
    · rw [if_pos hcap] at hm
      rcases List.mem_singleton.mp hm with rfl
      exact msgOk_not_special (by intro ro; simp) (by intro v; simp)
    · rw [if_neg hcap] at hm
      simp only [List.mem_append] at hm
      rcases hm with ((hm | hm) | hm) | hm
      · exact leave_msgOk rooms conn rs m hm
      · rcases List.mem_singleton.mp hm with rfl
        exact msgOk_not_special (by intro ro; simp) (by intro v; simp)
      · apply msgOk_not_special
        · intro ro; rw [broadcast_msg hm]; simp
        · intro v; rw [broadcast_msg hm]; simp
      · exact msgOk_roomState (broadcast_msg hm)

theorem setNameH_msgOk (rooms : List Room) (conn : Conn) (pn : Option String) (rs : List Room) :
    ∀ m ∈ (setNameH rooms conn pn).2.2, MsgOk rs m := by
  intro m hm
  unfold setNameH at hm
  split at hm
  · split at hm
    · rcases List.mem_singleton.mp hm with rfl
      exact msgOk_not_special (by intro ro; simp) (by intro v; simp)
    · split at hm
      · exact msgOk_roomState (broadcast_msg hm)
      · simp at hm
  · rcases List.mem_singleton.mp hm with rfl
    exact msgOk_not_special (by intro ro; simp) (by intro v; simp)

theorem updateSettingsH_msgOk (rooms : List Room) (conn : Conn) (pm : Option Int) (rs : List Room) :
    ∀ m ∈ (updateSettingsH rooms conn pm).2.2, MsgOk rs m := by
  intro m hm
  unfold updateSettingsH at hm
  cases hf : getRoomOfConn rooms conn with
  | none => simp only [hf] at hm; simp at hm
  | some room =>
    simp only [hf] at hm
    by_cases hh : room.hostId ≠ some conn.id
    · rw [if_pos hh] at hm
      rcases List.mem_singleton.mp hm with rfl
      exact msgOk_not_special (by intro ro; simp) (by intro v; simp)
    · rw [if_neg hh] at hm
      exact msgOk_roomState (broadcast_msg hm)

theorem updateRoleCountsH_msgOk (rooms : List Room) (conn : Conn)
    (pc : List (String × Option Int)) (rs : List Room) :
    ∀ m ∈ (updateRoleCountsH rooms conn pc).2.2, MsgOk rs m := by
  intro m hm
  unfold updateRoleCountsH at hm
  cases hf : getRoomOfConn rooms conn with
  | none => simp only [hf] at hm; simp at hm
  | some room =>
    simp only [hf] at hm
    by_cases hh : room.hostId ≠ some conn.id
    · rw [if_pos hh] at hm
      rcases List.mem_singleton.mp hm with rfl
      exact msgOk_not_special (by intro ro; simp) (by intro v; simp)
    · rw [if_neg hh] at hm
      exact msgOk_roomState (broadcast_msg hm)

theorem startGameH_msgOk (rooms : List Room) (conn : Conn) (rnd : Nat → Nat) :
    ∀ m ∈ (startGameH rooms conn rnd).2.2, MsgOk (startGameH rooms conn rnd).1 m := by
  intro m hm
  unfold startGameH at hm ⊢
  cases hf : getRoomOfConn rooms conn with
  | none => simp only [hf] at hm; simp at hm
  | some room =>
    simp only [hf] at hm ⊢
    by_cases hh : room.hostId ≠ some conn.id
    · rw [if_pos hh] at hm ⊢
      rcases List.mem_singleton.mp hm with rfl
      exact msgOk_not_special (by intro ro; simp) (by intro v; simp)
    · rw [if_neg hh] at hm ⊢
      by_cases hp : room.phase ≠ "lobby"
      · rw [if_pos hp] at hm ⊢
        rcases List.mem_singleton.mp hm with rfl
        exact msgOk_not_special (by intro ro; simp) (by intro v; simp)
      · rw [if_neg hp] at hm ⊢
        by_cases hn : room.peers.length < 3
        · rw [if_pos hn] at hm ⊢
          rcases List.mem_singleton.mp hm with rfl
          exact msgOk_not_special (by intro ro; simp) (by intro v; simp)
        · rw [if_neg hn] at hm ⊢
          simp only [List.mem_append] at hm
          rcases hm with hm | hm
          · -- a PRIVATE_ROLE unicast produced by the assignment loop
            rcases assignPeers_snd_mem _ 0 room.peers m hm with ⟨n, p, hpn, rfl⟩
            constructor
            · intro ro hro
              injection hro with hro
              refine ⟨{ room with
                  peers := (assignPeers (assignPool rnd room.settings.roleCatalog
                    room.settings.roleCounts room.peers.length) 0 room.peers).1,
                  phase := "night", day := 1 }, mem_setBy_self _ _, ?_⟩
              have hget := assignPeers_fst_get? (assignPool rnd room.settings.roleCatalog
                room.settings.roleCounts room.peers.length) room.peers 0 n
              rw [hpn] at hget
              simp only [Option.map_some, Nat.zero_add] at hget
              refine ⟨_, List.get?_mem hget, rfl, ?_⟩
              simp [← hro]
            · intro v hv
              cases hv
          · exact msgOk_roomState (broadcast_msg hm)

theorem dispatch_msgOk (rooms : List Room) (conn : Conn) (cm : ClientMsg) :
    ∀ m ∈ (dispatch rooms conn cm).2.2, MsgOk (dispatch rooms conn cm).1 m := by
  cases cm with
  | CREATE_ROOM code => exact createRoomH_msgOk rooms conn code _
  | JOIN_ROOM rid => exact joinRoomH_msgOk rooms conn rid _
  | SET_NAME n => exact setNameH_msgOk rooms conn n _
  | UPDATE_SETTINGS mp => exact updateSettingsH_msgOk rooms conn mp _
  | UPDATE_ROLE_COUNTS cs => exact updateRoleCountsH_msgOk rooms conn cs _
  | START_GAME rnd => exact startGameH_msgOk rooms conn rnd
  | PING =>
    intro m hm
    rcases List.mem_singleton.mp hm with rfl
    exact msgOk_not_special (by intro ro; simp) (by intro v; simp)

theorem handle_msgOk (st : ServerState) (ev : Event) :
    ∀ m ∈ (handle st ev).2, MsgOk (handle st ev).1.rooms m := by
  intro m hm
  cases ev with
  | connect cid =>
    simp only [handle] at hm
    rcases List.mem_singleton.mp hm with rfl
    exact msgOk_not_special (by intro ro; simp) (by intro v; simp)
  | message cid cm =>
    unfold handle at hm ⊢
    cases hc : findBy Conn.id st.conns cid with
    | none => simp only [hc] at hm; simp at hm
    | some conn =>
      simp only [hc] at hm ⊢
      exact dispatch_msgOk st.rooms conn cm m hm
  | close cid =>
    unfold handle at hm ⊢
    cases hc : findBy Conn.id st.conns cid with
    | none => simp only [hc] at hm; simp at hm
    | some conn =>
      simp only [hc] at hm ⊢
      exact leave_msgOk st.rooms conn _ m hm

theorem getRoomOfConn_mem {rooms : List Room} {conn : Conn} {room : Room}
    (h : getRoomOfConn rooms conn = some room) :
    room ∈ rooms ∧ conn.roomId = some room.id := by
  unfold getRoomOfConn at h
  rcases hcr : conn.roomId with _ | rid
  · rw [hcr] at h; cases h
  · rw [hcr] at h
    rcases findBy_eq_some h with ⟨hm, hid⟩
    exact ⟨hm, by rw [hid]⟩

theorem conn_unique {conns : List Conn} (hnd : (conns.map Conn.id).Nodup)
    {c conn : Conn} (hc : c ∈ conns) (hconn : conn ∈ conns) (hid : c.id = conn.id) :
    c = conn :=
  eq_of_keys_nodup (k := Conn.id) hnd hc hconn hid

theorem invP_owner {rooms : List Room} {conns : List Conn} {conn : Conn}
    (hInv : InvP rooms conns) (hc : conn ∈ conns) :
    ∀ room ∈ rooms, conn.id ∈ room.clients → conn.roomId = some room.id := by
  intro room hr hmem
  obtain ⟨c, hcc, hcid, hcrid⟩ := hInv.2.2.2.2.1 room hr conn.id hmem
  have : c = conn := conn_unique hInv.2.1 hcc hc hcid
  subst this
  exact hcrid

theorem leave_facts {rooms : List Room} {conns : List Conn} {conn : Conn}
    (hInv : InvP rooms conns) (hc : conn ∈ conns) :
    (((leaveRoomSt rooms conn).1.map Room.id).Nodup)
    ∧ (∀ room ∈ (leaveRoomSt rooms conn).1, room.id ≠ "")
    ∧ (∀ room ∈ (leaveRoomSt rooms conn).1, conn.id ∉ room.clients)
    ∧ (∀ room ∈ (leaveRoomSt rooms conn).1, ∀ cid ∈ room.clients,
        cid ≠ conn.id ∧ ∃ c ∈ conns, c.id = cid ∧ c.roomId = some room.id)
    ∧ (∀ room ∈ (leaveRoomSt rooms conn).1, ∀ p ∈ room.peers, p.id ∈ room.clients)
    ∧ (leaveRoomSt rooms conn).2.1.id = conn.id := by
  obtain ⟨hRnd, hCnd, hRne, hCtr, hCC, hPS⟩ := hInv
  have howner := invP_owner ⟨hRnd, hCnd, hRne, hCtr, hCC, hPS⟩ hc
  rcases hcr : conn.roomId with _ | rid
  · -- ws.roomId is null: leaveRoom is a no-op
    have hred : leaveRoomSt rooms conn = (rooms, conn, []) := by
      simp [leaveRoomSt, hcr]
    rw [hred]
    have hnotin : ∀ room ∈ rooms, conn.id ∉ room.clients := by
      intro room hr hmem
      have := howner room hr hmem
      rw [hcr] at this
      cases this
    refine ⟨hRnd, hRne, hnotin, ?_, hPS, rfl⟩
    intro room hr cid hcid
    refine ⟨fun he => hnotin room hr (he ▸ hcid), hCC room hr cid hcid⟩
  · by_cases hrid : rid = ""
    · exfalso
      apply hCtr conn hc
      rw [hcr, hrid]
    · cases hf : findBy Room.id rooms rid with
      | none =>
        have hred : leaveRoomSt rooms conn = (rooms, { conn with roomId := none }, []) := by
          simp [leaveRoomSt, hcr, hrid, hf]
        rw [hred]
        have hnotin : ∀ room ∈ rooms, conn.id ∉ room.clients := by
          intro room hr hmem
          have hrr := howner room hr hmem
          rw [hcr] at hrr
          injection hrr with hrr
          exact (findBy_eq_none.mp hf room hr) hrr.symm
        refine ⟨hRnd, hRne, hnotin, ?_, hPS, rfl⟩
        intro room hr cid hcid
        refine ⟨fun he => hnotin room hr (he ▸ hcid), hCC room hr cid hcid⟩
      | some room0 =>
        rcases findBy_eq_some hf with ⟨hm0, hid0⟩
        have hred : leaveRoomSt rooms conn
            = (if (removePeerFromRoom room0 conn.id).clients.isEmpty then delBy Room.id rooms rid
                else setBy Room.id rooms (removePeerFromRoom room0 conn.id),
              { conn with roomId := none },
              broadcastMsgs (removePeerFromRoom room0 conn.id) (.PEER_LEFT conn.id)
                ++ broadcastMsgs (removePeerFromRoom room0 conn.id)
                  (.ROOM_STATE (roomState (removePeerFromRoom room0 conn.id)))) := by
          simp [leaveRoomSt, hcr, hrid, hf]
        rw [hred]
        have hother : ∀ room ∈ rooms, room.id ≠ rid → conn.id ∉ room.clients := by
          intro room hr hne hmem
          have hrr := howner room hr hmem
          rw [hcr] at hrr
          injection hrr with hrr
          exact hne hrr.symm
        -- facts about the mutated room object
        have hr1id : (removePeerFromRoom room0 conn.id).id = room0.id := rfl
        have hr1cl : ∀ cid ∈ (removePeerFromRoom room0 conn.id).clients,
            cid ∈ room0.clients ∧ cid ≠ conn.id := by
          intro cid hcid
          have := List.mem_filter.mp hcid
          exact ⟨this.1, by simpa using this.2⟩
        have hr1notin : conn.id ∉ (removePeerFromRoom room0 conn.id).clients := by
          intro hmem
          exact (hr1cl conn.id hmem).2 rfl
        have hr1ps : ∀ p ∈ (removePeerFromRoom room0 conn.id).peers,
            p.id ∈ (removePeerFromRoom room0 conn.id).clients := by
          intro p hp
          have hp' := List.mem_filter.mp hp
          have hpc : p.id ∈ room0.clients := hPS room0 hm0 p hp'.1
          apply List.mem_filter.mpr
          exact ⟨hpc, by simpa using hp'.2⟩
        -- the two registry outcomes
        by_cases hemp : (removePeerFromRoom room0 conn.id).clients.isEmpty = true
        · rw [if_pos hemp]
          have hmemdel : ∀ room ∈ delBy Room.id rooms rid, room ∈ rooms ∧ room.id ≠ rid :=
            fun room hr => mem_delBy.mp hr
          refine ⟨keys_delBy_nodup hRnd rid, ?_, ?_, ?_, ?_, rfl⟩
          · intro room hr; exact hRne room (hmemdel room hr).1
          · intro room hr
            exact hother room (hmemdel room hr).1 (hmemdel room hr).2
          · intro room hr cid hcid
            have hin := (hmemdel room hr).1
            refine ⟨fun he => hother room hin (hmemdel room hr).2 (he ▸ hcid), hCC room hin cid hcid⟩
          · intro room hr; exact hPS room (hmemdel room hr).1
        · rw [if_neg hemp]
          have hcases : ∀ room ∈ setBy Room.id rooms (removePeerFromRoom room0 conn.id),
              room = removePeerFromRoom room0 conn.id ∨ (room ∈ rooms ∧ room.id ≠ rid) := by
            intro room hr
            rcases mem_setBy hr with h | ⟨h1, h2⟩
            · exact Or.inl h
            · right
              refine ⟨h1, ?_⟩
              rw [hr1id, hid0] at h2
              exact h2
          refine ⟨nodup_keys_setBy hRnd _, ?_, ?_, ?_, ?_, rfl⟩
          · intro room hr
            rcases hcases room hr with rfl | ⟨h1, _⟩
            · rw [hr1id, hid0]; exact hrid
            · exact hRne room h1
          · intro room hr
            rcases hcases room hr with rfl | ⟨h1, h2⟩
            · exact hr1notin
            · exact hother room h1 h2
          · intro room hr cid hcid
            rcases hcases room hr with rfl | ⟨h1, h2⟩
            · obtain ⟨hcl, hne⟩ := hr1cl cid hcid
              obtain ⟨c, hcc, hcid', hcrid⟩ := hCC room0 hm0 cid hcl
              exact ⟨hne, c, hcc, hcid', by rw [hcrid, hr1id]⟩
            · exact ⟨fun he => hother room h1 h2 (he ▸ hcid), hCC room h1 cid hcid⟩
          · intro room hr
            rcases hcases room hr with rfl | ⟨h1, _⟩
            · exact hr1ps
            · exact hPS room h1

theorem invP_conn_update {rooms : List Room} {conns : List Conn} {conn conn' : Conn}
    (hInv : InvP rooms conns) (hc : conn ∈ conns)
    (hid : conn'.id = conn.id) (hrid : conn'.roomId = conn.roomId) :
    InvP rooms (setBy Conn.id conns conn') := by
  obtain ⟨hRnd, hCnd, hRne, hCtr, hCC, hPS⟩ := hInv
  have hany : conns.any (fun q => q.id == conn'.id) = true :=
    List.any_eq_true.mpr ⟨conn, hc, by simp [hid]⟩
  refine ⟨hRnd, ?_, hRne, ?_, ?_, hPS⟩
  · rw [keys_setBy_of_any (k := Conn.id) hany]
    exact hCnd
  · intro c hcm
    rcases mem_setBy hcm with rfl | ⟨h1, _⟩
    · rw [hrid]; exact hCtr conn hc
    · exact hCtr c h1
  · intro room hr cid hcid
    obtain ⟨c0, hc0, hc0id, hc0rid⟩ := hCC room hr cid hcid
    by_cases he : c0.id = conn'.id
    · have : c0 = conn := conn_unique hCnd hc0 hc (by rw [he, hid])
      subst this
      refine ⟨conn', mem_setBy_self _ _, ?_, ?_⟩
      · rw [hid]; exact hc0id
      · rw [hrid]; exact hc0rid
    · exact ⟨c0, mem_setBy_of_ne hc0 he, hc0id, hc0rid⟩

theorem invP_room_update {rooms : List Room} {conns : List Conn} {room room1 : Room}
    (hInv : InvP rooms conns) (hmem : room ∈ rooms)
    (hid : room1.id = room.id) (hcl : room1.clients = room.clients)
    (hpe : ∀ p ∈ room1.peers, p.id ∈ room1.clients) :
    InvP (setBy Room.id rooms room1) conns := by
  obtain ⟨hRnd, hCnd, hRne, hCtr, hCC, hPS⟩ := hInv
  refine ⟨nodup_keys_setBy hRnd _, hCnd, ?_, hCtr, ?_, ?_⟩
  · intro r hr
    rcases mem_setBy hr with rfl | ⟨h1, _⟩
    · rw [hid]; exact hRne room hmem
    · exact hRne r h1
  · intro r hr cid hcid
    rcases mem_setBy hr with rfl | ⟨h1, _⟩
    · rw [hcl] at hcid
      obtain ⟨c, hcc, hcid', hcrid⟩ := hCC room hmem cid hcid
      exact ⟨c, hcc, hcid', by rw [hcrid, hid]⟩
    · exact hCC r h1 cid hcid
  · intro r hr
    rcases mem_setBy hr with rfl | ⟨h1, _⟩
    · exact hpe
    · exact hPS r h1

theorem leave_findBy_stable {rooms : List Room} {conn : Conn} {key : RoomId}
    (h : conn.roomId ≠ some key) :
    findBy Room.id (leaveRoomSt rooms conn).1 key = findBy Room.id rooms key := by
  rcases hcr : conn.roomId with _ | rid
  · simp [leaveRoomSt, hcr]
  · by_cases hrid : rid = ""
    · simp [leaveRoomSt, hcr, hrid]
    · have hne : key ≠ rid := by
        intro he
        exact h (by rw [hcr, he])
      cases hf : findBy Room.id rooms rid with
      | none => simp [leaveRoomSt, hcr, hrid, hf]
      | some room0 =>
        have hr1id : (removePeerFromRoom room0 conn.id).id = room0.id := rfl
        have hid0 := (findBy_eq_some hf).2
        have hred : (leaveRoomSt rooms conn).1
            = (if (removePeerFromRoom room0 conn.id).clients.isEmpty then delBy Room.id rooms rid
                else setBy Room.id rooms (removePeerFromRoom room0 conn.id)) := by
          simp [leaveRoomSt, hcr, hrid, hf]
        rw [hred]
        by_cases hemp : (removePeerFromRoom room0 conn.id).clients.isEmpty = true
        · rw [if_pos hemp]
          exact findBy_delBy_ne rooms hne
        · rw [if_neg hemp]
          apply findBy_setBy_ne
          rw [hr1id, hid0]
          exact hne

theorem createRoomH_inv {rooms : List Room} {conns : List Conn} {conn : Conn} {code : RoomId}
    (hInv : InvP rooms conns) (hc : conn ∈ conns) (hcode : code ≠ "") :
    InvP (createRoomH rooms conn code).1
      (setBy Conn.id conns (createRoomH rooms conn code).2.1) := by
  obtain ⟨lfN, lfE, lfI, lfC, lfP, lfid⟩ := leave_facts hInv hc
  obtain ⟨hRnd, hCnd, hRne, hCtr, hCC, hPS⟩ := hInv
  have h1 : (createRoomH rooms conn code).1
      = setBy Room.id (leaveRoomSt rooms conn).1 (createdRoom conn code) := rfl
  have h2 : (createRoomH rooms conn code).2.1
      = { (leaveRoomSt rooms conn).2.1 with roomId := some code } := rfl
  rw [h1, h2]
  have hc2id : ({ (leaveRoomSt rooms conn).2.1 with roomId := some code } : Conn).id = conn.id :=
    lfid
  have hanyc : conns.any (fun q => q.id ==
      ({ (leaveRoomSt rooms conn).2.1 with roomId := some code } : Conn).id) = true :=
    List.any_eq_true.mpr ⟨conn, hc, beq_iff_eq.mpr lfid.symm⟩
  refine ⟨nodup_keys_setBy lfN _, ?_, ?_, ?_, ?_, ?_⟩
  · rw [keys_setBy_of_any hanyc]
    exact hCnd
  · intro room hr
    rcases mem_setBy hr with rfl | ⟨h1', _⟩
    · exact hcode
    · exact lfE room h1'
  · intro c hcm
    rcases mem_setBy hcm with rfl | ⟨h1', _⟩
    · intro he
      injection he with he
      exact hcode he
    · exact hCtr c h1'
  · intro room hr cid hcid
    rcases mem_setBy hr with rfl | ⟨h1', h2'⟩
    · have : cid = conn.id := by
        simpa [createdRoom] using hcid
      subst this
      exact ⟨_, mem_setBy_self _ _, hc2id, rfl⟩
    · obtain ⟨hne, c, hcm, hcid', hcrid⟩ := lfC room h1' cid hcid
      refine ⟨c, mem_setBy_of_ne hcm ?_, hcid', hcrid⟩
      rw [hc2id, hcid']
      exact hne
  · intro room hr
    rcases mem_setBy hr with rfl | ⟨h1', _⟩
    · intro p hp
      simp only [createdRoom, List.mem_singleton] at hp
      subst hp
      simp [createdRoom]
    · exact lfP room h1'

theorem joinR1_id (conn : Conn) (key : RoomId) (room : Room) :
    (joinR1 conn key room).id = room.id := by
  unfold joinR1
  split <;> rfl

theorem joinR2_id (conn : Conn) (key : RoomId) (room : Room) :
    (joinR2 conn key room).id = room.id := joinR1_id conn key room

theorem joinRoomH_inv {rooms : List Room} {conns : List Conn} {conn : Conn} {rid : Option String}
    (hInv : InvP rooms conns) (hc : conn ∈ conns) :
    InvP (joinRoomH rooms conn rid).1
      (setBy Conn.id conns (joinRoomH rooms conn rid).2.1) := by
  obtain ⟨hRnd, hCnd, hRne, hCtr, hCC, hPS⟩ := hInv
  have hInv' : InvP rooms conns := ⟨hRnd, hCnd, hRne, hCtr, hCC, hPS⟩
  cases hf : findBy Room.id rooms ((jsOrOptS rid "").toUpper) with
  | none =>
    have h1 : (joinRoomH rooms conn rid).1 = rooms := by
      simp [joinRoomH, hf]
    have h2 : (joinRoomH rooms conn rid).2.1 = conn := by
      simp [joinRoomH, hf]
    rw [h1, h2]
    exact invP_conn_update hInv' hc rfl rfl
  | some room =>
    obtain ⟨hroommem, hroomid⟩ := findBy_eq_some hf
    by_cases hcap : room.settings.maxPlayers ≤ room.clients.length
    · have h1 : (joinRoomH rooms conn rid).1 = rooms := by
        simp only [joinRoomH, hf]
        rw [if_pos hcap]
      have h2 : (joinRoomH rooms conn rid).2.1 = conn := by
        simp only [joinRoomH, hf]
        rw [if_pos hcap]
      rw [h1, h2]
      exact invP_conn_update hInv' hc rfl rfl
    · obtain ⟨lfN, lfE, lfI, lfC, lfP, lfid⟩ := leave_facts hInv' hc
      have hkey : room.id ≠ "" := hRne room hroommem
      have h1 : (joinRoomH rooms conn rid).1
          = if (findBy Room.id (leaveRoomSt rooms conn).1 ((jsOrOptS rid "").toUpper)).isSome
              then setBy Room.id (leaveRoomSt rooms conn).1
                (joinR2 conn ((jsOrOptS rid "").toUpper) room)
              else (leaveRoomSt rooms conn).1 := by
        simp only [joinRoomH, hf]
        rw [if_neg hcap]
      have h2 : (joinRoomH rooms conn rid).2.1
          = { (leaveRoomSt rooms conn).2.1 with roomId := some room.id } := by
        simp only [joinRoomH, hf]
        rw [if_neg hcap]
      rw [h1, h2]
      have hc2id : ({ (leaveRoomSt rooms conn).2.1 with roomId := some room.id } : Conn).id
          = conn.id := lfid
      have hanyc : conns.any (fun q => q.id ==
          ({ (leaveRoomSt rooms conn).2.1 with roomId := some room.id } : Conn).id) = true :=
        List.any_eq_true.mpr ⟨conn, hc, beq_iff_eq.mpr lfid.symm⟩
      -- facts about the mutated room object r1 and r2
      have hr1A : ∀ cid ∈ (joinR1 conn ((jsOrOptS rid "").toUpper) room).clients,
          cid ≠ conn.id ∧ ∃ c ∈ conns, c.id = cid ∧ c.roomId = some room.id := by
        intro cid hcid
        unfold joinR1 at hcid
        by_cases hsr : conn.roomId = some ((jsOrOptS rid "").toUpper)
        · rw [if_pos hsr] at hcid
          have hmf := List.mem_filter.mp hcid
          refine ⟨by simpa using hmf.2, ?_⟩
          exact hCC room hroommem cid hmf.1
        · rw [if_neg hsr] at hcid
          refine ⟨?_, hCC room hroommem cid hcid⟩
          intro he
          subst he
          have := invP_owner hInv' hc room hroommem hcid
          rw [hroomid] at this
          exact hsr this
      have hr1P : ∀ p ∈ (joinR1 conn ((jsOrOptS rid "").toUpper) room).peers,
          p.id ∈ (joinR1 conn ((jsOrOptS rid "").toUpper) room).clients := by
        intro p hp
        unfold joinR1 at hp ⊢
        by_cases hsr : conn.roomId = some ((jsOrOptS rid "").toUpper)
        · rw [if_pos hsr] at hp ⊢
          have hp' := List.mem_filter.mp hp
          exact List.mem_filter.mpr ⟨hPS room hroommem p hp'.1, hp'.2⟩
        · rw [if_neg hsr] at hp ⊢
          exact hPS room hroommem p hp
      have hr2CC : ∀ cid ∈ (joinR2 conn ((jsOrOptS rid "").toUpper) room).clients,
          ∃ c ∈ setBy Conn.id conns
              ({ (leaveRoomSt rooms conn).2.1 with roomId := some room.id } : Conn),
            c.id = cid ∧ c.roomId = some (joinR2 conn ((jsOrOptS rid "").toUpper) room).id := by
        intro cid hcid
        rw [joinR2_id]
        have hcid' : cid ∈ (joinR1 conn ((jsOrOptS rid "").toUpper) room).clients
            ∨ cid = conn.id := by
          simpa [joinR2] using hcid
        rcases hcid' with hcid' | rfl
        · obtain ⟨hne, c, hcm, hcid'', hcrid⟩ := hr1A cid hcid'
          refine ⟨c, mem_setBy_of_ne hcm ?_, hcid'', hcrid⟩
          rw [hc2id, hcid'']
          exact hne
        · exact ⟨_, mem_setBy_self _ _, hc2id, rfl⟩
      have hr2P : ∀ p ∈ (joinR2 conn ((jsOrOptS rid "").toUpper) room).peers,
          p.id ∈ (joinR2 conn ((jsOrOptS rid "").toUpper) room).clients := by
        intro p hp
        have hp' : p = (⟨conn.id, jsOrOptS conn.name "Guest", none, false⟩ : Peer)
            ∨ p ∈ (joinR1 conn ((jsOrOptS rid "").toUpper) room).peers := by
          unfold joinR2 at hp
          rcases mem_setBy hp with h | ⟨h, _⟩
          · exact Or.inl h
          · exact Or.inr h
        show p.id ∈ (joinR1 conn ((jsOrOptS rid "").toUpper) room).clients ++ [conn.id]
        rcases hp' with rfl | hp'
        · simp
        · exact List.mem_append.mpr (Or.inl (hr1P p hp'))
      -- conns side, shared by both registry outcomes
      have hconns1 : ((setBy Conn.id conns
            ({ (leaveRoomSt rooms conn).2.1 with roomId := some room.id } : Conn)).map
          Conn.id).Nodup := by
        rw [keys_setBy_of_any hanyc]
        exact hCnd
      have hconns2 : ∀ c ∈ setBy Conn.id conns
            ({ (leaveRoomSt rooms conn).2.1 with roomId := some room.id } : Conn),
          c.roomId ≠ some "" := by
        intro c hcm
        rcases mem_setBy hcm with rfl | ⟨h1', _⟩
        · intro he
          injection he with he
          exact hkey he
        · exact hCtr c h1'
      by_cases hpres : (findBy Room.id (leaveRoomSt rooms conn).1
          ((jsOrOptS rid "").toUpper)).isSome = true
      · rw [if_pos hpres]
        refine ⟨nodup_keys_setBy lfN _, hconns1, ?_, hconns2, ?_, ?_⟩
        · intro r hr
          rcases mem_setBy hr with rfl | ⟨h1', _⟩
          · rw [joinR2_id]
            exact hkey
          · exact lfE r h1'
        · intro r hr cid hcid
          rcases mem_setBy hr with rfl | ⟨h1', _⟩
          · exact hr2CC cid hcid
          · obtain ⟨hne, c, hcm, hcid', hcrid⟩ := lfC r h1' cid hcid
            refine ⟨c, mem_setBy_of_ne hcm ?_, hcid', hcrid⟩
            rw [hc2id, hcid']
            exact hne
        · intro r hr
          rcases mem_setBy hr with rfl | ⟨h1', _⟩
          · exact hr2P
          · exact lfP r h1'
      · rw [if_neg hpres]
        refine ⟨lfN, hconns1, lfE, hconns2, ?_, lfP⟩
        intro r hr cid hcid
        obtain ⟨hne, c, hcm, hcid', hcrid⟩ := lfC r hr cid hcid
        refine ⟨c, mem_setBy_of_ne hcm ?_, hcid', hcrid⟩
        rw [hc2id, hcid']
        exact hne

theorem setNameH_inv {rooms : List Room} {conns : List Conn} {conn : Conn} {pn : Option String}
    (hInv : InvP rooms conns) (hc : conn ∈ conns) :
    InvP (setNameH rooms conn pn).1 (setBy Conn.id conns (setNameH rooms conn pn).2.1) := by
  obtain ⟨hRnd, hCnd, hRne, hCtr, hCC, hPS⟩ := hInv
  have hInv' : InvP rooms conns := ⟨hRnd, hCnd, hRne, hCtr, hCC, hPS⟩
  unfold setNameH
  generalize ((jsOrOptS pn "").take 24).trim = nm
  split
  next rid heqr =>
    split
    · exact invP_conn_update hInv' hc rfl rfl
    · split
      next room heqf =>
        obtain ⟨hroommem, hroomid⟩ := findBy_eq_some heqf
        split
        next p0 heqp =>
          obtain ⟨hp0mem, hp0id⟩ := findBy_eq_some heqp
          refine invP_conn_update ?_ hc ?_ ?_
          · refine invP_room_update hInv' hroommem ?_ ?_ ?_
            · rfl
            · rfl
            · intro p hpm
              rcases mem_setBy hpm with rfl | ⟨h1', _⟩
              · exact hPS room hroommem p0 hp0mem
              · exact hPS room hroommem p h1'
          · rfl
          · rfl
        next heqp =>
          refine invP_conn_update ?_ hc ?_ ?_
          · exact invP_room_update hInv' hroommem rfl rfl (hPS room hroommem)
          · rfl
          · rfl
      next heqf =>
        exact invP_conn_update hInv' hc rfl rfl
  next heqr =>
    exact invP_conn_update hInv' hc rfl rfl

theorem updateSettingsH_inv {rooms : List Room} {conns : List Conn} {conn : Conn}
    {pm : Option Int} (hInv : InvP rooms conns) (hc : conn ∈ conns) :
    InvP (updateSettingsH rooms conn pm).1
      (setBy Conn.id conns (updateSettingsH rooms conn pm).2.1) := by
  obtain ⟨hRnd, hCnd, hRne, hCtr, hCC, hPS⟩ := hInv
  have hInv' : InvP rooms conns := ⟨hRnd, hCnd, hRne, hCtr, hCC, hPS⟩
  unfold updateSettingsH
  split
  next heqf =>
    exact invP_conn_update hInv' hc rfl rfl
  next room heqf =>
    obtain ⟨hroommem, _⟩ := getRoomOfConn_mem heqf
    split
    · exact invP_conn_update hInv' hc rfl rfl
    · split
      next n heqm =>
        apply invP_conn_update ?_ hc rfl rfl
        exact invP_room_update hInv' hroommem rfl rfl (hPS room hroommem)
      next heqm =>
        apply invP_conn_update ?_ hc rfl rfl
        exact invP_room_update hInv' hroommem rfl rfl (hPS room hroommem)

theorem updateRoleCountsH_inv {rooms : List Room} {conns : List Conn} {conn : Conn}
    {pc : List (String × Option Int)} (hInv : InvP rooms conns) (hc : conn ∈ conns) :
    InvP (updateRoleCountsH rooms conn pc).1
      (setBy Conn.id conns (updateRoleCountsH rooms conn pc).2.1) := by
  obtain ⟨hRnd, hCnd, hRne, hCtr, hCC, hPS⟩ := hInv
  have hInv' : InvP rooms conns := ⟨hRnd, hCnd, hRne, hCtr, hCC, hPS⟩
  cases hf : getRoomOfConn rooms conn with
  | none =>
    have h1 : (updateRoleCountsH rooms conn pc).1 = rooms := by simp [updateRoleCountsH, hf]
    have h2 : (updateRoleCountsH rooms conn pc).2.1 = conn := by simp [updateRoleCountsH, hf]
    rw [h1, h2]
    exact invP_conn_update hInv' hc rfl rfl
  | some room =>
    obtain ⟨hroommem, _⟩ := getRoomOfConn_mem hf
    by_cases hh : room.hostId ≠ some conn.id
    · have h1 : (updateRoleCountsH rooms conn pc).1 = rooms := by
        simp only [updateRoleCountsH, hf]
        rw [if_pos hh]
      have h2 : (updateRoleCountsH rooms conn pc).2.1 = conn := by
        simp only [updateRoleCountsH, hf]
        rw [if_pos hh]
      rw [h1, h2]
      exact invP_conn_update hInv' hc rfl rfl
    · have h1 : (updateRoleCountsH rooms conn pc).1
          = setBy Room.id rooms { room with settings :=
            { room.settings with roleCounts := nextCounts room.settings.roleCatalog pc } } := by
        simp only [updateRoleCountsH, hf]
        rw [if_neg hh]
      have h2 : (updateRoleCountsH rooms conn pc).2.1 = conn := by
        simp only [updateRoleCountsH, hf]
        rw [if_neg hh]
      rw [h1, h2]
      exact invP_conn_update (invP_room_update hInv' hroommem rfl rfl
        (hPS room hroommem)) hc rfl rfl

theorem startGameH_inv {rooms : List Room} {conns : List Conn} {conn : Conn}
    {rnd : Nat → Nat} (hInv : InvP rooms conns) (hc : conn ∈ conns) :
    InvP (startGameH rooms conn rnd).1
      (setBy Conn.id conns (startGameH rooms conn rnd).2.1) := by
  obtain ⟨hRnd, hCnd, hRne, hCtr, hCC, hPS⟩ := hInv
  have hInv' : InvP rooms conns := ⟨hRnd, hCnd, hRne, hCtr, hCC, hPS⟩
  cases hf : getRoomOfConn rooms conn with
  | none =>
    have h1 : (startGameH rooms conn rnd).1 = rooms := by simp [startGameH, hf]
    have h2 : (startGameH rooms conn rnd).2.1 = conn := by simp [startGameH, hf]
    rw [h1, h2]
    exact invP_conn_update hInv' hc rfl rfl
  | some room =>
    obtain ⟨hroommem, _⟩ := getRoomOfConn_mem hf
    by_cases hh : room.hostId ≠ some conn.id
    · have h1 : (startGameH rooms conn rnd).1 = rooms := by
        simp only [startGameH, hf]
        rw [if_pos hh]
      have h2 : (startGameH rooms conn rnd).2.1 = conn := by
        simp only [startGameH, hf]
        rw [if_pos hh]
      rw [h1, h2]
      exact invP_conn_update hInv' hc rfl rfl
    · by_cases hp : room.phase ≠ "lobby"
      · have h1 : (startGameH rooms conn rnd).1 = rooms := by
          simp only [startGameH, hf]
          rw [if_neg hh, if_pos hp]
        have h2 : (startGameH rooms conn rnd).2.1 = conn := by
          simp only [startGameH, hf]
          rw [if_neg hh, if_pos hp]
        rw [h1, h2]
        exact invP_conn_update hInv' hc rfl rfl
      · by_cases hn : room.peers.length < 3
        · have h1 : (startGameH rooms conn rnd).1 = rooms := by
            simp only [startGameH, hf]
            rw [if_neg hh, if_neg hp, if_pos hn]
          have h2 : (startGameH rooms conn rnd).2.1 = conn := by
            simp only [startGameH, hf]
            rw [if_neg hh, if_neg hp, if_pos hn]
          rw [h1, h2]
          exact invP_conn_update hInv' hc rfl rfl
        · have h1 : (startGameH rooms conn rnd).1
              = setBy Room.id rooms { room with
                peers := (assignPeers (assignPool rnd room.settings.roleCatalog
                  room.settings.roleCounts room.peers.length) 0 room.peers).1,
                phase := "night", day := 1 } := by
            simp only [startGameH, hf]
            rw [if_neg hh, if_neg hp, if_neg hn]
          have h2 : (startGameH rooms conn rnd).2.1 = conn := by
            simp only [startGameH, hf]
            rw [if_neg hh, if_neg hp, if_neg hn]
          rw [h1, h2]
          have hps1 : ∀ p ∈ (assignPeers (assignPool rnd room.settings.roleCatalog
              room.settings.roleCounts room.peers.length) 0 room.peers).1,
              p.id ∈ room.clients := by
            intro p hpm
            have hmap : p.id ∈ room.peers.map Peer.id := by
              rw [← assignPeers_fst_ids (assignPool rnd room.settings.roleCatalog
                room.settings.roleCounts room.peers.length) 0 room.peers]
              exact List.mem_map_of_mem Peer.id hpm
            rcases List.mem_map.mp hmap with ⟨q, hq, hqid⟩
            rw [← hqid]
            exact hPS room hroommem q hq
          exact invP_conn_update (invP_room_update hInv' hroommem rfl rfl hps1) hc rfl rfl

theorem handle_inv {st : ServerState} {ev : Event} (hInv : StInv st) (hg : GoodEv ev)
    (hfresh : ∀ cid, ev = .connect cid → ∀ c ∈ st.conns, c.id ≠ cid) :
    StInv (handle st ev).1 := by
  obtain ⟨hRnd, hCnd, hRne, hCtr, hCC, hPS⟩ := hInv
  have hInv' : InvP st.rooms st.conns := ⟨hRnd, hCnd, hRne, hCtr, hCC, hPS⟩
  cases ev with
  | connect cid =>
    have hfresh' := hfresh cid rfl
    refine ⟨hRnd, ?_, hRne, ?_, ?_, hPS⟩
    · simp only [handle, List.map_append, List.map_cons, List.map_nil]
      rw [List.nodup_append]
      refine ⟨hCnd, List.nodup_singleton _, ?_⟩
      intro a ha hb
      rcases List.mem_map.mp ha with ⟨c, hcm, rfl⟩
      rcases List.mem_singleton.mp hb with h
      exact hfresh' c hcm h
    · intro c hcm
      rcases List.mem_append.mp hcm with h | h
      · exact hCtr c h
      · rcases List.mem_singleton.mp h with rfl
        simp
    · intro room hr cid' hcid
      obtain ⟨c, hcm, hcid', hcrid⟩ := hCC room hr cid' hcid
      exact ⟨c, List.mem_append.mpr (Or.inl hcm), hcid', hcrid⟩
  | close cid =>
    cases hcf : findBy Conn.id st.conns cid with
    | none =>
      have h : (handle st (.close cid)).1 = st := by simp [handle, hcf]
      rw [h]
      exact ⟨hRnd, hCnd, hRne, hCtr, hCC, hPS⟩
    | some conn =>
      have h : (handle st (.close cid)).1
          = { rooms := (leaveRoomSt st.rooms conn).1,
              conns := delBy Conn.id st.conns cid } := by
        simp [handle, hcf]
      rw [h]
      obtain ⟨hcm, hcid⟩ := findBy_eq_some hcf
      obtain ⟨lfN, lfE, lfI, lfC, lfP, _⟩ := leave_facts hInv' hcm
      refine ⟨lfN, keys_delBy_nodup hCnd cid, lfE, ?_, ?_, lfP⟩
      · intro c hcm'
        exact hCtr c (mem_delBy.mp hcm').1
      · intro room hr cid' hcid'
        obtain ⟨hne, c, hcm', hcid'', hcrid⟩ := lfC room hr cid' hcid'
        refine ⟨c, mem_delBy.mpr ⟨hcm', ?_⟩, hcid'', hcrid⟩
        rw [hcid'', ← hcid]
        exact hne
  | message cid cm =>
    cases hcf : findBy Conn.id st.conns cid with
    | none =>
      have h : (handle st (.message cid cm)).1 = st := by simp [handle, hcf]
      rw [h]
      exact ⟨hRnd, hCnd, hRne, hCtr, hCC, hPS⟩
    | some conn =>
      have h : (handle st (.message cid cm)).1
          = { rooms := (dispatch st.rooms conn cm).1,
              conns := setBy Conn.id st.conns (dispatch st.rooms conn cm).2.1 } := by
        simp [handle, hcf]
      rw [h]
      obtain ⟨hcm, _⟩ := findBy_eq_some hcf
      cases cm with
      | CREATE_ROOM code =>
        have hcode : code ≠ "" := hg
        exact createRoomH_inv hInv' hcm hcode
      | JOIN_ROOM rid => exact joinRoomH_inv hInv' hcm
      | SET_NAME n => exact setNameH_inv hInv' hcm
      | UPDATE_SETTINGS mp => exact updateSettingsH_inv hInv' hcm
      | UPDATE_ROLE_COUNTS cs => exact updateRoleCountsH_inv hInv' hcm
      | START_GAME rnd => exact startGameH_inv hInv' hcm
      | PING => exact invP_conn_update hInv' hcm rfl rfl

theorem reachesGood_inv {st : ServerState} (h : ReachesGood st) : StInv st := by
  induction h with
  | init =>
    refine ⟨?_, ?_, ?_, ?_, ?_, ?_⟩ <;> simp [StInv, InvP]
  | step st ev h hg hfresh ih => exact handle_inv ih hg hfresh

theorem stInv_at_most_one {st : ServerState} (hInv : StInv st) (cid : ConnId) :
    (st.rooms.filter (occupies cid)).length ≤ 1 := by
  obtain ⟨hRnd, hCnd, hRne, hCtr, hCC, hPS⟩ := hInv
  have hInv' : InvP st.rooms st.conns := ⟨hRnd, hCnd, hRne, hCtr, hCC, hPS⟩
  have hroomsnd : st.rooms.Nodup := by
    have := hRnd
    exact List.Nodup.of_map Room.id this
  apply nodup_length_le_one (List.Nodup.sublist (List.filter_sublist _) hroomsnd)
  intro a ha b hb
  have hmem : ∀ r ∈ st.rooms.filter (occupies cid), r ∈ st.rooms ∧ cid ∈ r.clients := by
    intro r hr
    have h' := List.mem_filter.mp hr
    refine ⟨h'.1, ?_⟩
    have hocc := h'.2
    unfold occupies at hocc
    rcases Bool.or_eq_true_iff.mp hocc with h | h
    · have : cid ∈ r.clients := by
        have := List.contains_iff_exists_mem_beq.mp h
        rcases this with ⟨a', ha', he⟩
        have : cid = a' := beq_iff_eq.mp he
        rw [this]
        exact ha'
      exact this
    · rcases List.any_eq_true.mp h with ⟨p, hp, hpe⟩
      have : p.id = cid := beq_iff_eq.mp hpe
      rw [← this]
      exact hPS r h'.1 p hp
  obtain ⟨ham, hac⟩ := hmem a ha
  obtain ⟨hbm, hbc⟩ := hmem b hb
  obtain ⟨ca, hcam, hcaid, hcarid⟩ := hCC a ham cid hac
  obtain ⟨cb, hcbm, hcbid, hcbrid⟩ := hCC b hbm cid hbc
  have hcc : ca = cb := conn_unique hCnd hcam hcbm (by rw [hcaid, hcbid])
  subst hcc
  have hid : a.id = b.id := by
    rw [hcarid] at hcbrid
    injection hcbrid
  exact eq_of_keys_nodup (k := Room.id) hRnd ham hbm hid

theorem clampCount_le (v : Option Int) : clampCount v ≤ 50 := by
  cases v with
  | none => simp [clampCount]
  | some n =>
    simp only [clampCount]
    split <;> omega

theorem nextCounts_step1_invariant (catalog : List String)
    (pcounts : List (String × Option Int)) :
    ∀ acc : List (String × Nat),
      ((acc.map Prod.fst).Nodup ∧ ∀ kv ∈ acc, kv.1 ∈ catalog ∧ kv.2 ≤ 50) →
      (((pcounts.foldl
          (fun acc rv =>
            if catalog.contains rv.1 then setBy Prod.fst acc (rv.1, clampCount rv.2)
            else acc) acc).map Prod.fst).Nodup
        ∧ ∀ kv ∈ pcounts.foldl
            (fun acc rv =>
              if catalog.contains rv.1 then setBy Prod.fst acc (rv.1, clampCount rv.2)
              else acc) acc, kv.1 ∈ catalog ∧ kv.2 ≤ 50) := by
  induction pcounts with
  | nil => intro acc h; exact h
  | cons rv t ih =>
    intro acc h
    simp only [List.foldl_cons]
    apply ih
    by_cases hin : catalog.contains rv.1
    · rw [if_pos hin]
      constructor
      · exact nodup_keys_setBy h.1 _
      · intro kv hkv
        rcases mem_setBy hkv with rfl | ⟨h1, _⟩
        · constructor
          · have := List.contains_iff_exists_mem_beq.mp hin
            rcases this with ⟨a, ha, he⟩
            rw [beq_iff_eq.mp he]
            exact ha
          · exact clampCount_le rv.2
        · exact h.2 kv h1
    · rw [if_neg hin]
      exact h

theorem nextCounts_fill_invariant (catalogAll : List String) :
    ∀ (catalog : List String) (acc : List (String × Nat)),
      ((acc.map Prod.fst).Nodup ∧ ∀ kv ∈ acc, kv.1 ∈ catalogAll ∧ kv.2 ≤ 50) →
      (catalog.Subset catalogAll) →
      let res := catalog.foldl
        (fun acc r => if (findBy Prod.fst acc r).isSome then acc else setBy Prod.fst acc (r, 0)) acc
      ((res.map Prod.fst).Nodup
        ∧ (∀ kv ∈ res, kv.1 ∈ catalogAll ∧ kv.2 ≤ 50)
        ∧ (∀ kv ∈ acc, kv ∈ res)
        ∧ (∀ r ∈ catalog, r ∈ res.map Prod.fst)) := by
  intro catalog
  induction catalog with
  | nil =>
    intro acc h _
    exact ⟨h.1, h.2, fun kv hkv => hkv, by simp⟩
  | cons r t ih =>
    intro acc h hsub
    simp only [List.foldl_cons]
    have hsub' : t.Subset catalogAll := fun x hx => hsub (List.mem_cons_of_mem r hx)
    by_cases hf : (findBy Prod.fst acc r).isSome = true
    · rw [if_pos hf]
      have hres := ih acc h hsub'
      refine ⟨hres.1, hres.2.1, hres.2.2.1, ?_⟩
      intro r' hr'
      rcases List.mem_cons.mp hr' with rfl | hr'
      · rcases Option.isSome_iff_exists.mp hf with ⟨kv, hkv⟩
        obtain ⟨hkvm, hkvk⟩ := findBy_eq_some hkv
        have := hres.2.2.1 kv hkvm
        rw [← hkvk]
        exact List.mem_map_of_mem Prod.fst this
      · exact hres.2.2.2 r' hr'
    · rw [if_neg hf]
      have hacc' : (((setBy Prod.fst acc (r, 0)).map Prod.fst).Nodup
          ∧ ∀ kv ∈ setBy Prod.fst acc (r, 0), kv.1 ∈ catalogAll ∧ kv.2 ≤ 50) := by
        constructor
        · exact nodup_keys_setBy h.1 _
        · intro kv hkv
          rcases mem_setBy hkv with rfl | ⟨h1, _⟩
          · exact ⟨hsub (List.mem_cons_self r t), Nat.zero_le 50⟩
          · exact h.2 kv h1
      have hres := ih (setBy Prod.fst acc (r, 0)) hacc' hsub'
      have hnone : findBy Prod.fst acc r = none := by
        cases hfa : findBy Prod.fst acc r with
        | none => rfl
        | some kv => rw [hfa] at hf; simp at hf
      have hmono : ∀ kv ∈ acc, kv ∈ setBy Prod.fst acc (r, 0) := by
        intro kv hkv
        exact mem_setBy_of_ne hkv (findBy_eq_none.mp hnone kv hkv)
      refine ⟨hres.1, hres.2.1, ?_, ?_⟩
      · intro kv hkv
        exact hres.2.2.1 kv (hmono kv hkv)
      · intro r' hr'
        rcases List.mem_cons.mp hr' with rfl | hr'
        · have hmem0 : (r', (0 : Nat)) ∈ setBy Prod.fst acc (r', 0) := mem_setBy_self _ _
          have := hres.2.2.1 _ hmem0
          exact List.mem_map_of_mem Prod.fst this
        · exact hres.2.2.2 r' hr'

theorem nextCounts_spec (catalog : List String) (pcounts : List (String × Option Int)) :
    ((nextCounts catalog pcounts).map Prod.fst).Nodup
    ∧ (∀ r, r ∈ (nextCounts catalog pcounts).map Prod.fst ↔ r ∈ catalog)
    ∧ (∀ kv ∈ nextCounts catalog pcounts, kv.2 ≤ 50) := by
  have hstep1 := nextCounts_step1_invariant catalog pcounts [] (by simp)
  have hfill := nextCounts_fill_invariant catalog catalog
    (pcounts.foldl
      (fun acc rv =>
        if catalog.contains rv.1 then setBy Prod.fst acc (rv.1, clampCount rv.2)
        else acc) [])
    ⟨hstep1.1, hstep1.2⟩ (List.Subset.refl catalog)
  refine ⟨hfill.1, ?_, fun kv hkv => (hfill.2.1 kv hkv).2⟩
  intro r
  constructor
  · intro hr
    rcases List.mem_map.mp hr with ⟨kv, hkv, rfl⟩
    exact (hfill.2.1 kv hkv).1
  · intro hr
    exact hfill.2.2.2 r hr

theorem roomState_mapRoles (f : ConnId → Option String) (room : Room) :
    roomState (mapRolesRoom f room) = roomState room := by
  simp [roomState, mapRolesRoom, List.map_map]

theorem roomState_peers_shape (room : Room) :
    (roomState room).peers
      = room.peers.map (fun p => { id := p.id, name := jsOrOptS (some p.name) "—", alive := p.alive }) :=
  rfl

theorem timerTick_mono (paused : Bool) (t : PhaseTimer) :
    (timerTick paused t).remainingMs ≤ t.remainingMs := by
  unfold timerTick
  split
  · simp
  · exact Nat.le_refl _

theorem timerReach_zero {t : PhaseTimer} (h : TimerReach t) :
    t.remainingMs = 0 → t.running = false := by
  induction h with
  | start d ph hd =>
    intro h0
    simp only [timerStart] at h0
    omega
  | tick paused t ht ih =>
    intro h0
    by_cases hb : (t.running && !paused) = true
    · unfold timerTick at h0 ⊢
      rw [if_pos hb] at h0 ⊢
      simp only at h0 ⊢
      rw [if_pos h0]
    · unfold timerTick at h0 ⊢
      rw [if_neg hb] at h0 ⊢
      exact ih h0

/-- Claim C1: every PRIVATE_ROLE payload the server emits in any step is the
recipient's own (post-state) role; every ROOM_STATE payload is the redacted
public snapshot of some room; that snapshot is invariant under arbitrary
reassignment of all peer roles (it carries no role information); and its
peer entries are exactly the id, name and alive projections. -/
theorem claim_C1_role_privacy :
    (∀ (st : ServerState) (ev : Event), ∀ m ∈ (handle st ev).2, MsgOk (handle st ev).1.rooms m)
    ∧ (∀ (f : ConnId → Option String) (room : Room),
        roomState (mapRolesRoom f room) = roomState room)
    ∧ (∀ room : Room, (roomState room).peers
        = room.peers.map (fun p =>
            { id := p.id, name := jsOrOptS (some p.name) "—", alive := p.alive })) :=
  ⟨handle_msgOk, roomState_mapRoles, roomState_peers_shape⟩

theorem claim_C1_witness :
    MsgOk (handle { rooms := [], conns := [⟨1, none, none⟩] } (.message 1 .PING)).1.rooms
      { dest := 1, msg := .PONG }
    ∧ roomState (mapRolesRoom (fun _ => some "pablo")
        (⟨"R", some 1, "lobby", 0, [1], [⟨1, "a", none, false⟩],
          ⟨11, ROLE_CATALOG, defaultCounts⟩⟩ : Room))
      = roomState (⟨"R", some 1, "lobby", 0, [1], [⟨1, "a", none, false⟩],
          ⟨11, ROLE_CATALOG, defaultCounts⟩⟩ : Room) :=
  ⟨claim_C1_role_privacy.1 _ _ _ (by decide), claim_C1_role_privacy.2.1 _ _⟩

/-- Claim C5: in a lobby room with fewer than 3 peers, a host-issued
START_GAME leaves the whole server state unchanged and sends exactly one
ERROR NEED_AT_LEAST_3_PLAYERS message, addressed to the requester only. -/
theorem claim_C5_start_guard (st : ServerState) (cid : ConnId) (rnd : Nat → Nat)
    (conn : Conn) (room : Room)
    (hconns : (st.conns.map Conn.id).Nodup)
    (hfc : findBy Conn.id st.conns cid = some conn)
    (hfr : getRoomOfConn st.rooms conn = some room)
    (hhost : room.hostId = some conn.id)
    (hlobby : room.phase = "lobby")
    (hn : room.peers.length < 3) :
    handle st (.message cid (.START_GAME rnd))
      = (st, [{ dest := cid, msg := .ERROR "NEED_AT_LEAST_3_PLAYERS" }]) := by
  obtain ⟨hmem, hcid⟩ := findBy_eq_some hfc
  have hs : startGameH st.rooms conn rnd
      = (st.rooms, conn, [{ dest := conn.id, msg := .ERROR "NEED_AT_LEAST_3_PLAYERS" }]) := by
    simp only [startGameH, hfr]
    rw [if_neg (fun hx => hx hhost), if_neg (fun hx => hx hlobby), if_pos hn]
  have h : handle st (.message cid (.START_GAME rnd))
      = ({ rooms := st.rooms, conns := setBy Conn.id st.conns conn },
        [{ dest := conn.id, msg := .ERROR "NEED_AT_LEAST_3_PLAYERS" }]) := by
    simp [handle, hfc, dispatch, hs]
  rw [h, setBy_self_of_nodup hconns hmem, hcid]

theorem claim_C5_witness :
    handle
        (⟨[⟨"R", some 1, "lobby", 0, [1, 2],
            [⟨1, "a", none, false⟩, ⟨2, "b", none, false⟩],
            ⟨11, ROLE_CATALOG, defaultCounts⟩⟩],
          [⟨1, some "R", none⟩, ⟨2, some "R", none⟩]⟩ : ServerState)
        (.message 1 (.START_GAME (fun i => i)))
      = (⟨[⟨"R", some 1, "lobby", 0, [1, 2],
            [⟨1, "a", none, false⟩, ⟨2, "b", none, false⟩],
            ⟨11, ROLE_CATALOG, defaultCounts⟩⟩],
          [⟨1, some "R", none⟩, ⟨2, some "R", none⟩]⟩,
        [⟨1, .ERROR "NEED_AT_LEAST_3_PLAYERS"⟩]) :=
  claim_C5_start_guard _ 1 _ ⟨1, some "R", none⟩
    ⟨"R", some 1, "lobby", 0, [1, 2],
      [⟨1, "a", none, false⟩, ⟨2, "b", none, false⟩],
      ⟨11, ROLE_CATALOG, defaultCounts⟩⟩
    (by decide) (by decide) (by decide) (by decide) (by decide) (by decide)

/-- Claim C7: the phase timer, modelled from the spec because no timer
exists in src: starting at 5000 ms and ticking unpaused yields 4000, 3000,
2000, 1000, 0 with running turning false exactly at the fifth tick; a
paused tick leaves the timer untouched (remainingMs frozen); remainingMs
never increases on any tick; and in every reachable timer state remainingMs
zero forces running to be false. -/
theorem claim_C7_timer :
    (∀ ph : String,
      timerTick false (timerStart 5000 ph) = ⟨4000, true, ph⟩
      ∧ timerTick false (timerTick false (timerStart 5000 ph)) = ⟨3000, true, ph⟩
      ∧ timerTick false (timerTick false (timerTick false (timerStart 5000 ph)))
          = ⟨2000, true, ph⟩
      ∧ timerTick false (timerTick false (timerTick false (timerTick false
          (timerStart 5000 ph)))) = ⟨1000, true, ph⟩
      ∧ timerTick false (timerTick false (timerTick false (timerTick false (timerTick false
          (timerStart 5000 ph))))) = ⟨0, false, ph⟩)
    ∧ (∀ t : PhaseTimer, timerTick true t = t)
    ∧ (∀ (paused : Bool) (t : PhaseTimer), (timerTick paused t).remainingMs ≤ t.remainingMs)
    ∧ (∀ t : PhaseTimer, TimerReach t → t.remainingMs = 0 → t.running = false) := by
  refine ⟨?_, ?_, timerTick_mono, fun t h h0 => timerReach_zero h h0⟩
  · intro ph
    have h1 : timerTick false (timerStart 5000 ph) = ⟨4000, true, ph⟩ := rfl
    have h2 : timerTick false (⟨4000, true, ph⟩ : PhaseTimer) = ⟨3000, true, ph⟩ := rfl
    have h3 : timerTick false (⟨3000, true, ph⟩ : PhaseTimer) = ⟨2000, true, ph⟩ := rfl
    have h4 : timerTick false (⟨2000, true, ph⟩ : PhaseTimer) = ⟨1000, true, ph⟩ := rfl
    have h5 : timerTick false (⟨1000, true, ph⟩ : PhaseTimer) = ⟨0, false, ph⟩ := rfl
    refine ⟨h1, ?_, ?_, ?_, ?_⟩
    · rw [h1, h2]
    · rw [h1, h2, h3]
    · rw [h1, h2, h3, h4]
    · rw [h1, h2, h3, h4, h5]
  · intro t
    simp [timerTick]

theorem claim_C7_witness :
    (timerTick false (timerTick false (timerTick false (timerTick false (timerTick false
        (timerStart 5000 "night")))))).running = false :=
  claim_C7_timer.2.2.2 _
    (.tick false _ (.tick false _ (.tick false _ (.tick false _ (.tick false _
      (.start 5000 "night" (by omega)))))))
    (by decide)

/-- Claim C8 counterexample: CREATE_ROOM does not check the registry before
insertion; generating a code equal to an existing live room's id makes
Map.set replace that room, so the old room (host 1) is overwritten by the
new one (host 2) and only one room remains. -/
theorem claim_C8_counterexample :
    ((handle
        { rooms := [⟨"AAAAAA", some 1, "lobby", 0, [1], [⟨1, "h", none, false⟩],
            ⟨11, ROLE_CATALOG, defaultCounts⟩⟩],
          conns := [⟨1, some "AAAAAA", none⟩, ⟨2, none, none⟩] }
        (.message 2 (.CREATE_ROOM "AAAAAA"))).1.rooms.map
      (fun r => (r.id, r.hostId, r.clients.contains 1)))
      = [("AAAAAA", some 2, false)] := by decide

/-- Claim C8 amended: CREATE_ROOM inserts the generated code into the
registry unconditionally (no collision check, no retry): afterwards the
registry maps that code to the newly created room of the sender, and no
other room with that code survives. -/
theorem claim_C8_amended (rooms : List Room) (conn : Conn) (code : RoomId) :
    findBy Room.id (createRoomH rooms conn code).1 code = some (createdRoom conn code)
    ∧ (createdRoom conn code).id = code
    ∧ (createdRoom conn code).hostId = some conn.id
    ∧ (createdRoom conn code).clients = [conn.id]
    ∧ (createdRoom conn code).phase = "lobby"
    ∧ ∀ r ∈ (createRoomH rooms conn code).1, r.id = code → r = createdRoom conn code := by
  refine ⟨?_, rfl, rfl, rfl, rfl, ?_⟩
  · exact findBy_setBy_self (leaveRoomSt rooms conn).1 (createdRoom conn code)
  · intro r hr hid
    rcases mem_setBy hr with rfl | ⟨_, hne⟩
    · rfl
    · exact absurd hid hne

/-- Claim C2: in a lobby room with N at least 3 peers, a host START_GAME
assigns roles from the pool built by repeating each catalog role
roleCounts[role] times in catalog order, seeded with one citizen when
empty, padded with citizen up to N, shuffled (a permutation of the padded
pool) and truncated to exactly N entries; each of the N peers keeps its id,
gets exactly one role drawn from that pool, and has alive set true, while
the room moves to phase night with day 1. -/
theorem claim_C2_assignment (rooms : List Room) (conn : Conn) (rnd : Nat → Nat) (room : Room)
    (hfind : getRoomOfConn rooms conn = some room)
    (hhost : room.hostId = some conn.id)
    (hlobby : room.phase = "lobby")
    (hn : 3 ≤ room.peers.length) :
    (assignPool rnd room.settings.roleCatalog room.settings.roleCounts room.peers.length
      = (shuffle rnd (padPool (seedPool (buildPool room.settings.roleCatalog
          room.settings.roleCounts)) room.peers.length)).take room.peers.length)
    ∧ room.peers.length ≤ (padPool (seedPool (buildPool room.settings.roleCatalog
        room.settings.roleCounts)) room.peers.length).length
    ∧ List.Perm
        (shuffle rnd (padPool (seedPool (buildPool room.settings.roleCatalog
          room.settings.roleCounts)) room.peers.length))
        (padPool (seedPool (buildPool room.settings.roleCatalog
          room.settings.roleCounts)) room.peers.length)
    ∧ (assignPool rnd room.settings.roleCatalog room.settings.roleCounts
        room.peers.length).length = room.peers.length
    ∧ ∃ room1 ∈ (startGameH rooms conn rnd).1,
        room1.id = room.id ∧ room1.phase = "night" ∧ room1.day = 1
        ∧ room1.peers.length = room.peers.length
        ∧ room1.peers.map Peer.id = room.peers.map Peer.id
        ∧ ∀ i, i < room.peers.length →
            ∃ p r, room1.peers.get? i = some p ∧ p.role = some r
              ∧ r ∈ padPool (seedPool (buildPool room.settings.roleCatalog
                  room.settings.roleCounts)) room.peers.length
              ∧ p.alive = true := by
  refine ⟨rfl, padPool_length_ge _ _, shuffle_perm _ _, assignPool_length _ _ _ _, ?_⟩
  have h1 : (startGameH rooms conn rnd).1
      = setBy Room.id rooms { room with
        peers := (assignPeers (assignPool rnd room.settings.roleCatalog
          room.settings.roleCounts room.peers.length) 0 room.peers).1,
        phase := "night", day := 1 } := by
    simp only [startGameH, hfind]
    rw [if_neg (fun hx => hx hhost), if_neg (fun hx => hx hlobby), if_neg (by omega)]
  rw [h1]
  refine ⟨_, mem_setBy_self _ _, rfl, rfl, rfl, ?_, ?_, ?_⟩
  · exact assignPeers_fst_length _ 0 room.peers
  · exact assignPeers_fst_ids _ 0 room.peers
  · intro i hi
    cases hg : room.peers.get? i with
    | none =>
      rw [List.get?_eq_none] at hg
      omega
    | some p0 =>
      cases hr : (assignPool rnd room.settings.roleCatalog room.settings.roleCounts
          room.peers.length).get? i with
      | none =>
        rw [List.get?_eq_none, assignPool_length] at hr
        omega
      | some r =>
        refine ⟨{ p0 with role := some r, alive := true }, r, ?_, rfl, ?_, rfl⟩
        · have hget := assignPeers_fst_get? (assignPool rnd room.settings.roleCatalog
            room.settings.roleCounts room.peers.length) room.peers 0 i
          rw [hg] at hget
          simp only [Option.map_some, Nat.zero_add] at hget
          rw [hget, hr]
          rfl
        · exact assignPool_mem (List.get?_mem hr)

theorem claim_C2_witness :
    (assignPool (fun i => i) ROLE_CATALOG defaultCounts 3).length = 3 :=
  (claim_C2_assignment
    [⟨"R", some 1, "lobby", 0, [1, 2, 3],
      [⟨1, "a", none, false⟩, ⟨2, "b", none, false⟩, ⟨3, "c", none, false⟩],
      ⟨11, ROLE_CATALOG, defaultCounts⟩⟩]
    ⟨1, some "R", none⟩ (fun i => i)
    ⟨"R", some 1, "lobby", 0, [1, 2, 3],
      [⟨1, "a", none, false⟩, ⟨2, "b", none, false⟩, ⟨3, "c", none, false⟩],
      ⟨11, ROLE_CATALOG, defaultCounts⟩⟩
    (by decide) (by decide) (by decide) (by decide)).2.2.2.1

/-- Claim C3 counterexample: after peer 2 of room R disconnects, the room's
peers map no longer holds any record for id 2 (and its connection is gone
from clients) - the peer record is deleted, not retained with a nulled
connection, so there is nothing a reconnect could restore. -/
theorem claim_C3_counterexample :
    (findBy Room.id (handle
        (⟨[⟨"R", some 1, "night", 1, [1, 2],
            [⟨1, "h", none, false⟩, ⟨2, "g", some "pablo", true⟩],
            ⟨11, ROLE_CATALOG, defaultCounts⟩⟩],
          [⟨1, some "R", none⟩, ⟨2, some "R", none⟩]⟩ : ServerState)
        (.close 2)).1.rooms "R").map (fun r => (r.peers.map Peer.id, r.clients))
      = some ([1], [1]) := by decide

/-- Claim C3 amended: on disconnect the peer record is deleted from the
room's peers together with its connection from clients (the room itself is
deleted when its client set emptied), and the closed connection is removed
from the live set; nothing is retained for the peer, so no reconnect can
restore name, role or alive. -/
theorem claim_C3_amended (st : ServerState) (cid : ConnId) (conn : Conn) (rid : RoomId)
    (room : Room)
    (hfc : findBy Conn.id st.conns cid = some conn)
    (hr : conn.roomId = some rid) (hrne : rid ≠ "")
    (hfr : findBy Room.id st.rooms rid = some room) :
    (findBy Room.id (handle st (.close cid)).1.rooms rid
        = if (removePeerFromRoom room conn.id).clients.isEmpty then none
          else some (removePeerFromRoom room conn.id))
    ∧ (∀ p ∈ (removePeerFromRoom room conn.id).peers, p.id ≠ conn.id)
    ∧ conn.id ∉ (removePeerFromRoom room conn.id).clients
    ∧ findBy Conn.id (handle st (.close cid)).1.conns cid = none := by
  have hrooms : (handle st (.close cid)).1.rooms = (leaveRoomSt st.rooms conn).1 := by
    simp [handle, hfc]
  have hconns : (handle st (.close cid)).1.conns = delBy Conn.id st.conns cid := by
    simp [handle, hfc]
  have hred : (leaveRoomSt st.rooms conn).1
      = if (removePeerFromRoom room conn.id).clients.isEmpty then delBy Room.id st.rooms rid
        else setBy Room.id st.rooms (removePeerFromRoom room conn.id) := by
    simp [leaveRoomSt, hr, hrne, hfr]
  refine ⟨?_, ?_, ?_, ?_⟩
  · rw [hrooms, hred]
    by_cases hemp : (removePeerFromRoom room conn.id).clients.isEmpty = true
    · rw [if_pos hemp, if_pos hemp]
      exact findBy_delBy_self st.rooms rid
    · rw [if_neg hemp, if_neg hemp]
      have hidr : (removePeerFromRoom room conn.id).id = rid := (findBy_eq_some hfr).2
      rw [← hidr]
      exact findBy_setBy_self st.rooms (removePeerFromRoom room conn.id)
  · intro p hp
    have := (List.mem_filter.mp hp).2
    simpa using this
  · intro hmem
    have := (List.mem_filter.mp hmem).2
    simp at this
  · rw [hconns]
    exact findBy_delBy_self st.conns cid

theorem claim_C3_witness :
    (∀ p ∈ (removePeerFromRoom
        (⟨"R", some 1, "night", 1, [1, 2],
          [⟨1, "h", none, false⟩, ⟨2, "g", some "pablo", true⟩],
          ⟨11, ROLE_CATALOG, defaultCounts⟩⟩ : Room) 2).peers, p.id ≠ 2)
    ∧ findBy Conn.id (handle
        (⟨[⟨"R", some 1, "night", 1, [1, 2],
            [⟨1, "h", none, false⟩, ⟨2, "g", some "pablo", true⟩],
            ⟨11, ROLE_CATALOG, defaultCounts⟩⟩],
          [⟨1, some "R", none⟩, ⟨2, some "R", none⟩]⟩ : ServerState)
        (.close 2)).1.conns 2 = none :=
  ⟨(claim_C3_amended
      (⟨[⟨"R", some 1, "night", 1, [1, 2],
          [⟨1, "h", none, false⟩, ⟨2, "g", some "pablo", true⟩],
          ⟨11, ROLE_CATALOG, defaultCounts⟩⟩],
        [⟨1, some "R", none⟩, ⟨2, some "R", none⟩]⟩ : ServerState)
      2 ⟨2, some "R", none⟩ "R"
      ⟨"R", some 1, "night", 1, [1, 2],
        [⟨1, "h", none, false⟩, ⟨2, "g", some "pablo", true⟩],
        ⟨11, ROLE_CATALOG, defaultCounts⟩⟩
      (by decide) (by decide) (by decide) (by decide)).2.1,
    (claim_C3_amended
      (⟨[⟨"R", some 1, "night", 1, [1, 2],
          [⟨1, "h", none, false⟩, ⟨2, "g", some "pablo", true⟩],
          ⟨11, ROLE_CATALOG, defaultCounts⟩⟩],
        [⟨1, some "R", none⟩, ⟨2, some "R", none⟩]⟩ : ServerState)
      2 ⟨2, some "R", none⟩ "R"
      ⟨"R", some 1, "night", 1, [1, 2],
        [⟨1, "h", none, false⟩, ⟨2, "g", some "pablo", true⟩],
        ⟨11, ROLE_CATALOG, defaultCounts⟩⟩
      (by decide) (by decide) (by decide) (by decide)).2.2.2⟩

/-- Claim C4 counterexample: when the host disconnects and no peer remains,
leaveRoom sets the room's hostId to null (remaining[0] or null) rather than
leaving it as-is. -/
theorem claim_C4_counterexample :
    (removePeerFromRoom (⟨"R", some 1, "lobby", 0, [1], [⟨1, "h", none, false⟩],
        ⟨11, ROLE_CATALOG, defaultCounts⟩⟩ : Room) 1).hostId = none
    ∧ (⟨"R", some 1, "lobby", 0, [1], [⟨1, "h", none, false⟩],
        ⟨11, ROLE_CATALOG, defaultCounts⟩⟩ : Room).hostId = some 1 := by decide

/-- Claim C4 amended: when the host's connection closes, leaveRoom promotes
the first remaining peer (a connected one, since every peer of this server
has a live connection) to host before the PEER_LEFT and ROOM_STATE
broadcasts are sent - every ROOM_STATE payload of the step carries the new
hostId; if no peer remains, hostId is set to null (and the empty room is
deleted), not left as-is. -/
theorem claim_C4_amended (st : ServerState) (cid : ConnId) (conn : Conn) (rid : RoomId)
    (room : Room)
    (hfc : findBy Conn.id st.conns cid = some conn)
    (hr : conn.roomId = some rid) (hrne : rid ≠ "")
    (hfr : findBy Room.id st.rooms rid = some room)
    (hhost : room.hostId = some conn.id)
    (hps : ∀ p ∈ room.peers, p.id ∈ room.clients) :
    ((removePeerFromRoom room conn.id).peers ≠ [] →
      ∃ p0, (removePeerFromRoom room conn.id).peers.head? = some p0
        ∧ (removePeerFromRoom room conn.id).hostId = some p0.id
        ∧ p0.id ∈ (removePeerFromRoom room conn.id).clients)
    ∧ ((removePeerFromRoom room conn.id).peers = []
        → (removePeerFromRoom room conn.id).hostId = none)
    ∧ (∀ m ∈ (handle st (.close cid)).2, ∀ v, m.msg = .ROOM_STATE v →
        v.hostId = (removePeerFromRoom room conn.id).hostId) := by
  have hhid : (removePeerFromRoom room conn.id).hostId
      = ((room.peers.filter (fun p => p.id ≠ conn.id)).head?).map Peer.id := by
    simp [removePeerFromRoom, hhost]
  refine ⟨?_, ?_, ?_⟩
  · intro hne
    cases hh : (room.peers.filter (fun p => p.id ≠ conn.id)).head? with
    | none =>
      exfalso
      apply hne
      have := List.head?_eq_none_iff.mp hh
      exact this
    | some p0 =>
      refine ⟨p0, hh, by rw [hhid, hh]; rfl, ?_⟩
      have hp0 : p0 ∈ room.peers.filter (fun p => p.id ≠ conn.id) :=
        List.mem_of_mem_head? hh
      have hmf := List.mem_filter.mp hp0
      apply List.mem_filter.mpr
      exact ⟨hps p0 hmf.1, hmf.2⟩
  · intro hemp
    rw [hhid]
    have h0 : (room.peers.filter (fun p => p.id ≠ conn.id)).head? = none :=
      List.head?_eq_none_iff.mpr hemp
    rw [h0]
    rfl
  · have hmsgs : (handle st (.close cid)).2
        = broadcastMsgs (removePeerFromRoom room conn.id) (.PEER_LEFT conn.id)
          ++ broadcastMsgs (removePeerFromRoom room conn.id)
            (.ROOM_STATE (roomState (removePeerFromRoom room conn.id))) := by
      simp [handle, hfc, leaveRoomSt, hr, hrne, hfr]
    rw [hmsgs]
    intro m hm v hv
    rcases List.mem_append.mp hm with h | h
    · rw [broadcast_msg h] at hv
      cases hv
    · rw [broadcast_msg h] at hv
      injection hv with hv
      rw [← hv]
      rfl

theorem claim_C4_witness :
    ∃ p0, (removePeerFromRoom
        (⟨"R", some 1, "night", 1, [1, 2],
          [⟨1, "h", none, false⟩, ⟨2, "g", some "pablo", true⟩],
          ⟨11, ROLE_CATALOG, defaultCounts⟩⟩ : Room) 1).peers.head? = some p0
      ∧ (removePeerFromRoom
        (⟨"R", some 1, "night", 1, [1, 2],
          [⟨1, "h", none, false⟩, ⟨2, "g", some "pablo", true⟩],
          ⟨11, ROLE_CATALOG, defaultCounts⟩⟩ : Room) 1).hostId = some p0.id
      ∧ p0.id ∈ (removePeerFromRoom
        (⟨"R", some 1, "night", 1, [1, 2],
          [⟨1, "h", none, false⟩, ⟨2, "g", some "pablo", true⟩],
          ⟨11, ROLE_CATALOG, defaultCounts⟩⟩ : Room) 1).clients :=
  (claim_C4_amended
    (⟨[⟨"R", some 1, "night", 1, [1, 2],
        [⟨1, "h", none, false⟩, ⟨2, "g", some "pablo", true⟩],
        ⟨11, ROLE_CATALOG, defaultCounts⟩⟩],
      [⟨1, some "R", none⟩, ⟨2, some "R", none⟩]⟩ : ServerState)
    1 ⟨1, some "R", none⟩ "R"
    ⟨"R", some 1, "night", 1, [1, 2],
      [⟨1, "h", none, false⟩, ⟨2, "g", some "pablo", true⟩],
      ⟨11, ROLE_CATALOG, defaultCounts⟩⟩
    (by decide) (by decide) (by decide) (by decide) (by decide) (by decide)).1
    (by decide)

/-- Claim C9: CREATE_ROOM installs defaultCounts, whose keys are exactly
the catalog in order with every value in the clamp range; and a host-issued
UPDATE_ROLE_COUNTS stores nextCounts, whose key set is exactly one entry
per catalog member (non-catalog payload keys discarded, missing catalog
roles filled with 0) and whose values are naturals capped at 50. -/
theorem claim_C9_role_counts (rooms : List Room) (conn : Conn)
    (pcounts : List (String × Option Int)) (room : Room)
    (hfr : getRoomOfConn rooms conn = some room)
    (hhost : room.hostId = some conn.id) :
    (∃ room1 ∈ (updateRoleCountsH rooms conn pcounts).1,
      room1.id = room.id
      ∧ room1.settings.roleCounts = nextCounts room.settings.roleCatalog pcounts
      ∧ ((room1.settings.roleCounts.map Prod.fst).Nodup
        ∧ (∀ r, r ∈ room1.settings.roleCounts.map Prod.fst ↔ r ∈ room.settings.roleCatalog)
        ∧ ∀ kv ∈ room1.settings.roleCounts, kv.2 ≤ 50))
    ∧ ((createdRoom conn "X").settings.roleCounts = defaultCounts
      ∧ defaultCounts.map Prod.fst = ROLE_CATALOG
      ∧ ∀ kv ∈ defaultCounts, kv.2 ≤ 50) := by
  constructor
  · have h1 : (updateRoleCountsH rooms conn pcounts).1
        = setBy Room.id rooms { room with settings :=
          { room.settings with roleCounts := nextCounts room.settings.roleCatalog pcounts } } := by
      simp only [updateRoleCountsH, hfr]
      rw [if_neg (fun hx => hx hhost)]
    rw [h1]
    refine ⟨_, mem_setBy_self _ _, rfl, rfl, ?_⟩
    exact nextCounts_spec room.settings.roleCatalog pcounts
  · exact ⟨rfl, by decide, by decide⟩

theorem claim_C9_witness :
    ∃ room1 ∈ (updateRoleCountsH
        [(⟨"R", some 1, "lobby", 0, [1], [⟨1, "h", none, false⟩],
          ⟨11, ROLE_CATALOG, defaultCounts⟩⟩ : Room)]
        (⟨1, some "R", none⟩ : Conn)
        [("pablo", some 3), ("bogus", some 9), ("doctor", some (-2)), ("citizen", some 99)]).1,
      room1.id = "R"
      ∧ room1.settings.roleCounts = nextCounts ROLE_CATALOG
          [("pablo", some 3), ("bogus", some 9), ("doctor", some (-2)), ("citizen", some 99)]
      ∧ ((room1.settings.roleCounts.map Prod.fst).Nodup
        ∧ (∀ r, r ∈ room1.settings.roleCounts.map Prod.fst ↔ r ∈ ROLE_CATALOG)
        ∧ ∀ kv ∈ room1.settings.roleCounts, kv.2 ≤ 50) :=
  (claim_C9_role_counts _ _ _
    ⟨"R", some 1, "lobby", 0, [1], [⟨1, "h", none, false⟩],
      ⟨11, ROLE_CATALOG, defaultCounts⟩⟩
    (by decide) (by decide)).1

/-- Claim C10 counterexample: genRoomId can return the empty string (the
base-36 expansion of Math.random() = 0 is the single character 0, whose
slice from index 2 is empty); a room created under that falsy code is never
left, because leaveRoom early-returns on a falsy ws.roomId, so its creator
ends up inside two rooms' clients and peers sets along a reachable trace. -/
theorem claim_C10_counterexample :
    Reaches (handle (handle (handle ⟨[], []⟩ (.connect 7)).1
        (.message 7 (.CREATE_ROOM ""))).1 (.message 7 (.CREATE_ROOM "BBBBBB"))).1
    ∧ 2 ≤ ((handle (handle (handle ⟨[], []⟩ (.connect 7)).1
        (.message 7 (.CREATE_ROOM ""))).1 (.message 7 (.CREATE_ROOM "BBBBBB"))).1.rooms.filter
      (occupies 7)).length := by
  constructor
  · apply Reaches.step _ _ (Reaches.step _ _ (Reaches.step _ _ Reaches.init ?_) ?_) ?_
    · intro cid h c hc
      cases hc
    · intro cid h
      simp at h
    · intro cid h
      simp at h
  · decide

/-- Claim C10 amended: along every trace whose generated room codes are
truthy (nonempty), a connection occupies at most one live room at any time:
CREATE_ROOM and JOIN_ROOM run leaveRoom before inserting the sender, and
leaveRoom removes it from the (unique) room its roomId names.  The
restriction is forced by the counterexample: leaveRoom early-returns on a
falsy roomId, so a room registered under the empty code is never left. -/
theorem claim_C10_amended {st : ServerState} (h : ReachesGood st) (cid : ConnId) :
    (st.rooms.filter (occupies cid)).length ≤ 1 :=
  stInv_at_most_one (reachesGood_inv h) cid

theorem claim_C10_witness :
    (((handle (handle ⟨[], []⟩ (.connect 1)).1
        (.message 1 (.CREATE_ROOM "AAAAAA"))).1.rooms.filter (occupies 1)).length ≤ 1) := by
  apply claim_C10_amended
  apply ReachesGood.step _ _ (ReachesGood.step _ _ ReachesGood.init ?_ ?_) ?_ ?_
  · trivial
  · intro cid h c hc
    cases hc
  · show ("AAAAAA" : String) ≠ ""
    decide
  · intro cid h
    simp at h
